import Mathlib

/-!
# Verification of the go-nfctype4 NFC Forum Type 4 Tag implementation

Shallow embedding of the protocol layer of the `hsanjuan/go-nfctype4`
repository: the Command/Response APDU codec (`apdu/capdu.go`,
`apdu/rapdu.go`), the TLV / Capability-Container codec
(`capabilitycontainer/tlv.go` and the 2020-generation
`capabilitycontainer/capability_container.go`), the static software tag
(`tags/static/tag.go`), the software-tag and dummy command drivers
(`drivers/swtag/driver.go`, `drivers/dummy/driver.go`), the `Commander`
(`commander.go`) and the Reader `Device` procedures (`device.go`, 2020
generation).

Bytes are modelled as `Nat` values (callers only ever store values
< 256); byte strings are `List Nat`.  Go functions returning
`(value, error)` become `Except String` or `Option`; a Go runtime panic
(out-of-range slice or index) is modelled as `none` / a distinguished
error.  Go `uint16` arithmetic is modelled with explicit `% 256` /
division where the source casts.
-/

namespace NT4

/-! ## Byte helpers (`helpers/helpers.go`) -/

/-- `helpers.BytesToUint16`: big-endian unsigned 16-bit value of two bytes. -/
def bytesToUint16 (b0 b1 : Nat) : Nat := 256 * b0 + b1

/-- High byte of `helpers.Uint16ToBytes` (`byte(value >> 8)` on a `uint16`). -/
def u16hi (v : Nat) : Nat := v / 256 % 256

/-- Low byte of `helpers.Uint16ToBytes` (`byte(0x00ff & value)`). -/
def u16lo (v : Nat) : Nat := v % 256

/-- `helpers.Uint16ToBytes` as a two-element byte list. -/
def u16Bytes (v : Nat) : List Nat := [u16hi v, u16lo v]

/-- `binary.BigEndian.Uint64`-style fold of a byte list. -/
def beBytes (l : List Nat) : Nat := l.foldl (fun acc b => 256 * acc + b) 0

/-! ## Command APDU (`apdu/capdu.go`) -/

/-- `apdu.CAPDU`: a Command APDU.  `Lc` has 0, 1 or 3 bytes and `Le`
0, 1, 2 or 3 bytes in well-formed values. -/
structure CAPDU where
  CLA : Nat
  INS : Nat
  P1 : Nat
  P2 : Nat
  Lc : List Nat
  Data : List Nat
  Le : List Nat
deriving Repr, DecidableEq

/-- `CAPDU.GetLc`: numeric value of the `Lc` bytes (0 when the shape is
not recognised). -/
def CAPDU.GetLc (a : CAPDU) : Nat :=
  match a.Lc with
  | [] => 0
  | [b] => b
  | [_, b1, b2] => bytesToUint16 b1 b2
  | _ => 0

/-- `CAPDU.GetLe`: numeric value of the `Le` bytes.  A 1-byte `0x00`
means 256; a 2-byte `0x0000` saturates to 65535 (documented BUG in the
source); 0 when the shape is not recognised. -/
def CAPDU.GetLe (a : CAPDU) : Nat :=
  match a.Le with
  | [] => 0
  | [b] => if b = 0 then 256 else b
  | [b0, b1] => if b0 = 0 ∧ b1 = 0 then 65535 else bytesToUint16 b0 b1
  | [_, b1, b2] => bytesToUint16 b1 b2
  | _ => 0

/-- `CAPDU.SetLc`: byte encoding chosen by the source for an `Lc` value. -/
def setLcBytes (n : Nat) : List Nat :=
  if n = 0 then []
  else if n ≤ 255 then [n]
  else [0, u16hi n, u16lo n]

/-- `CAPDU.SetLe`: byte encoding chosen by the source for an `Le` value;
the width of a large `Le` depends on whether `Lc` is present. -/
def setLeBytes (lcLen : Nat) (n : Nat) : List Nat :=
  if n = 0 then []
  else if n ≤ 255 then [n]
  else if n = 256 then [0]
  else if lcLen > 0 then [u16hi n, u16lo n]
  else [0, u16hi n, u16lo n]

/-- The `Lc` arm of `CAPDU.check`. -/
def CAPDU.lcValid (a : CAPDU) : Bool :=
  match a.Lc with
  | [] => true
  | [b] => decide (b ≠ 0)
  | [b0, b1, b2] => decide (b0 = 0 ∧ ¬(b1 = 0 ∧ b2 = 0))
  | _ => false

/-- The `Le` arm of `CAPDU.check`. -/
def CAPDU.leValid (a : CAPDU) : Bool :=
  match a.Le with
  | [_, _] => decide (a.Lc.length ≠ 0)
  | [b0, _, _] => decide (a.Lc.length = 0 ∧ b0 = 0)
  | le => decide (le.length ≤ 3)

/-- `CAPDU.check`: the ISO 7816-4 shape invariants enforced by the
source (returns `true` where the Go method returns a `nil` error). -/
def CAPDU.check (a : CAPDU) : Bool :=
  a.lcValid && a.leValid && decide (a.GetLc = a.Data.length)

/-- `CAPDU.Marshal`: header, `Lc`, data and `Le` concatenated, guarded
by `check`. -/
def CAPDU.Marshal (a : CAPDU) : Option (List Nat) :=
  if a.check then some ([a.CLA, a.INS, a.P1, a.P2] ++ a.Lc ++ a.Data ++ a.Le)
  else none

/-- `CAPDU.Unmarshal`: the seven-case ISO 7816-4 body classifier of the
source.  When no case matches, the source leaves the freshly `Reset`
CAPDU untouched and only then runs `check` (this behaviour is preserved
here).  `none` models a returned error. -/
def CAPDU.Unmarshal (buf : List Nat) : Option CAPDU :=
  match buf with
  | cla :: ins :: p1 :: p2 :: body =>
    let b1 := body.getD 0 0
    let b2 := body.getD 1 0
    let b3 := body.getD 2 0
    let B := body.length
    let parsed : CAPDU :=
      if B = 0 then ⟨cla, ins, p1, p2, [], [], []⟩
      else if B = 1 then ⟨cla, ins, p1, p2, [], [], [b1]⟩
      else if B = 1 + b1 ∧ b1 ≠ 0 then
        ⟨cla, ins, p1, p2, [b1], (body.drop 1).take b1, []⟩
      else if B = 2 + b1 ∧ b1 ≠ 0 then
        ⟨cla, ins, p1, p2, [b1], (body.drop 1).take b1, [body.getD (1 + b1) 0]⟩
      else if B = 3 ∧ b1 = 0 then ⟨cla, ins, p1, p2, [], [], [b1, b2, b3]⟩
      else if B = 3 + bytesToUint16 b2 b3 ∧ b1 = 0 ∧ ¬(b2 = 0 ∧ b3 = 0) then
        ⟨cla, ins, p1, p2, [b1, b2, b3],
         (body.drop 3).take (bytesToUint16 b2 b3), []⟩
      else if B = 5 + bytesToUint16 b2 b3 ∧ b1 = 0 ∧ ¬(b2 = 0 ∧ b3 = 0) then
        ⟨cla, ins, p1, p2, [b1, b2, b3],
         (body.drop 3).take (bytesToUint16 b2 b3),
         (body.drop (3 + bytesToUint16 b2 b3)).take 2⟩
      else ⟨cla, ins, p1, p2, [], [], []⟩
    if parsed.check then some parsed else none
  | _ => none

/-- `apdu.NewNDEFTagApplicationSelectAPDU`: SELECT by name of the NDEF
application, `Lc = 7`, `Le` set to 256 (one byte `0x00`). -/
def NewNDEFTagApplicationSelectAPDU : CAPDU :=
  { CLA := 0x00, INS := 0xA4, P1 := 0x04, P2 := 0x00,
    Lc := setLcBytes 7,
    Data := [0xD2, 0x76, 0x00, 0x00, 0x85, 0x01, 0x01],
    Le := setLeBytes (setLcBytes 7).length 256 }

/-- `apdu.NewReadBinaryAPDU`. -/
def NewReadBinaryAPDU (offset length : Nat) : CAPDU :=
  { CLA := 0x00, INS := 0xB0, P1 := u16hi offset, P2 := u16lo offset,
    Lc := [], Data := [], Le := setLeBytes 0 length }

/-- `apdu.NewSelectAPDU`: SELECT by file identifier. -/
def NewSelectAPDU (fileID : Nat) : CAPDU :=
  { CLA := 0x00, INS := 0xA4, P1 := 0x00, P2 := 0x0C,
    Lc := setLcBytes 2, Data := u16Bytes fileID, Le := [] }

/-- Modelled from the spec: `apdu.NewUpdateBinaryAPDU` is called by
`Commander.UpdateBinary` but its definition is not among the sources.
Spec §4.2: `new_update_binary(data, offset)`: `cla=0x00, ins=0xD6,
p1=hi(offset), p2=lo(offset), lc=|data|, data=data`, no `le`. -/
def NewUpdateBinaryAPDU (data : List Nat) (offset : Nat) : CAPDU :=
  { CLA := 0x00, INS := 0xD6, P1 := u16hi offset, P2 := u16lo offset,
    Lc := setLcBytes data.length, Data := data, Le := [] }

/-! ## Response APDU (`apdu/rapdu.go`) -/

/-- `apdu.RAPDU`: a Response APDU. -/
structure RAPDU where
  ResponseBody : List Nat
  SW1 : Nat
  SW2 : Nat
deriving Repr, DecidableEq

/-- `RAPDU.Unmarshal`: everything except the two trailing status bytes
is the body; fails only below 2 bytes. -/
def RAPDU.Unmarshal (buf : List Nat) : Option RAPDU :=
  if buf.length < 2 then none
  else some ⟨buf.take (buf.length - 2),
             buf.getD (buf.length - 2) 0, buf.getD (buf.length - 1) 0⟩

/-- `RAPDU.Marshal`. -/
def RAPDU.Marshal (r : RAPDU) : List Nat := r.ResponseBody ++ [r.SW1, r.SW2]

/-- `RAPDU.CommandCompleted`. -/
def RAPDU.CommandCompleted (r : RAPDU) : Bool :=
  r.SW1 == 0x90 && r.SW2 == 0x00

/-- `RAPDU.FileNotFound`. -/
def RAPDU.FileNotFound (r : RAPDU) : Bool :=
  r.SW1 == 0x6A && r.SW2 == 0x82

/-- `NewRAPDU(RAPDUCommandCompleted)`. -/
def rapduCommandCompleted : RAPDU := ⟨[], 0x90, 0x00⟩

/-- `NewRAPDU(RAPDUCommandNotAllowed)`. -/
def rapduCommandNotAllowed : RAPDU := ⟨[], 0x69, 0x00⟩

/-- `NewRAPDU(RAPDUFileNotFound)`. -/
def rapduFileNotFound : RAPDU := ⟨[], 0x6A, 0x82⟩

/-- `NewRAPDU(RAPDUInactiveState)`. -/
def rapduInactiveState : RAPDU := ⟨[], 0x69, 0x01⟩

/-! ## TLV blocks (`capabilitycontainer/tlv.go`, 2020 generation) -/

/-- `capabilitycontainer.TLV`: a plain TLV block; `L` is a `uint16` in
this source generation. -/
structure TLV where
  T : Nat
  L : Nat
  V : List Nat
deriving Repr, DecidableEq

/-- `TLV.check` (2020 generation): only that `L` matches `|V|`. -/
def TLV.check (t : TLV) : Bool := decide (t.L = t.V.length)

/-- `TLV.Unmarshal`: parses `T`, a 1- or 3-byte length and the value;
returns the block together with the number of consumed bytes.  Running
out of bytes is the `helpers.GetByte`/`GetBytes` panic, recovered into
an error by `HandleErrorPanic`. -/
def TLV.Unmarshal (buf : List Nat) : Except String (TLV × Nat) :=
  match buf with
  | [] => .error "TLV.Unmarshal: Unexpected end of data"
  | t :: rest =>
    match rest with
    | [] => .ok (⟨t, 0, []⟩, 1)
    | l0 :: rest2 =>
      if l0 = 0xFF then
        match rest2 with
        | l1 :: l2 :: rest3 =>
          let L := bytesToUint16 l1 l2
          if rest3.length < L then .error "TLV.Unmarshal: Unexpected end of data"
          else if L < 0xFF then
            .error "TLV.Unmarshal: 3-byte length used for a value < 0xFF"
          else .ok (⟨t, L, rest3.take L⟩, 4 + L)
        | _ => .error "TLV.Unmarshal: Unexpected end of data"
      else
        if rest2.length < l0 then .error "TLV.Unmarshal: Unexpected end of data"
        else .ok (⟨t, l0, rest2.take l0⟩, 2 + l0)

/-- `TLV.Marshal`. -/
def TLV.Marshal (t : TLV) : Option (List Nat) :=
  if t.check then
    some (t.T :: (if t.L ≥ 0xFF then 0xFF :: u16Bytes t.L else [t.L]) ++ t.V)
  else none

/-- `capabilitycontainer.ControlTLV` (2020 generation): 8-byte TLV
describing one file; the `NDEFFileControlTLV` type alias shares this
representation. -/
structure ControlTLV where
  T : Nat
  L : Nat
  FileID : Nat
  MaximumFileSize : Nat
  FileReadAccessCondition : Nat
  FileWriteAccessCondition : Nat
deriving Repr, DecidableEq

/-- `ControlTLV.check`: reserved / RFU validation of the four fields. -/
def ControlTLV.check (c : ControlTLV) : Bool :=
  decide (c.FileID ≠ 0x0000 ∧ c.FileID ≠ 0xE102 ∧ c.FileID ≠ 0xE103 ∧
          c.FileID ≠ 0x3F00 ∧ c.FileID ≠ 0x3FFF ∧ c.FileID ≠ 0xFFFF ∧
          ¬ c.MaximumFileSize ≤ 0x0004 ∧
          ¬ (0x01 ≤ c.FileReadAccessCondition ∧ c.FileReadAccessCondition ≤ 0x7F) ∧
          ¬ (0x01 ≤ c.FileWriteAccessCondition ∧ c.FileWriteAccessCondition ≤ 0x7F))

/-- `ControlTLV.IsNDEFFileControlTLV`. -/
def ControlTLV.IsNDEFFileControlTLV (c : ControlTLV) : Bool := c.T == 0x04

/-- `ControlTLV.IsPropietaryFileControlTLV`. -/
def ControlTLV.IsPropietaryFileControlTLV (c : ControlTLV) : Bool := c.T == 0x05

/-- `ControlTLV.IsFileReadable`. -/
def ControlTLV.IsFileReadable (c : ControlTLV) : Bool :=
  c.FileReadAccessCondition == 0x00

/-- `ControlTLV.IsFileWriteable`. -/
def ControlTLV.IsFileWriteable (c : ControlTLV) : Bool :=
  c.FileWriteAccessCondition == 0x00

/-- `ControlTLV.IsFileReadOnly`. -/
def ControlTLV.IsFileReadOnly (c : ControlTLV) : Bool :=
  c.FileWriteAccessCondition == 0xFF && c.IsFileReadable

/-- `ControlTLV.Unmarshal`: parse as a plain TLV, require exactly 8
consumed bytes, project the value into the structured fields and check
them. -/
def ControlTLV.Unmarshal (buf : List Nat) : Except String (ControlTLV × Nat) := do
  let (tlv, parsed) ← TLV.Unmarshal buf
  if parsed ≠ 8 then .error "ControlTLV: Wrong size"
  else
    let c : ControlTLV :=
      ⟨tlv.T, tlv.L,
       bytesToUint16 (tlv.V.getD 0 0) (tlv.V.getD 1 0),
       bytesToUint16 (tlv.V.getD 2 0) (tlv.V.getD 3 0),
       tlv.V.getD 4 0, tlv.V.getD 5 0⟩
    if c.check then .ok (c, 8) else .error "ControlTLV.check: RFU"

/-- `ControlTLV.Marshal`: re-encode through the plain-TLV marshaller. -/
def ControlTLV.Marshal (c : ControlTLV) : Option (List Nat) :=
  if c.check then
    TLV.Marshal ⟨c.T, c.L,
      u16Bytes c.FileID ++ u16Bytes c.MaximumFileSize ++
      [c.FileReadAccessCondition, c.FileWriteAccessCondition]⟩
  else none

/-- `NDEFFileControlTLV.Unmarshal`: a `ControlTLV` whose `T` must be
`0x04`. -/
def NDEFFileControlTLV.Unmarshal (buf : List Nat) :
    Except String (ControlTLV × Nat) := do
  let (c, parsed) ← ControlTLV.Unmarshal buf
  if c.IsNDEFFileControlTLV then .ok (c, parsed)
  else .error "NDEFFileControlTLV.Unmarshal: TLV is not a NDEF File Control TLV"

/-! ## Capability Container (2020 generation of
`capabilitycontainer/capability_container.go`) -/

/-- `capabilitycontainer.CapabilityContainer` (2020 generation):
`uint16` header fields and trailing `TLVBlocks` stored as control
TLVs. -/
structure CapabilityContainer where
  CCLEN : Nat
  MappingVersion : Nat
  MLe : Nat
  MLc : Nat
  NDEFFileControlTLV : ControlTLV
  TLVBlocks : List ControlTLV
deriving Repr, DecidableEq

/-- `CapabilityContainer.check`. -/
def CapabilityContainer.check (cc : CapabilityContainer) : Bool :=
  decide (¬ cc.CCLEN ≤ 0x000E) && decide (cc.CCLEN ≠ 0xFFFF) &&
  decide (¬ cc.MLe ≤ 0x000E) && decide (cc.MLc ≠ 0) &&
  cc.NDEFFileControlTLV.check && cc.TLVBlocks.all ControlTLV.check

/-- The trailing-TLV loop of `CapabilityContainer.Unmarshal`: while
fewer than `CCLEN` bytes are consumed, parse a plain TLV first; blocks
whose `T` is not `0x04`/`0x05` are skipped over, others are re-parsed
as control TLVs and collected.  The `fuel` argument bounds the
iteration count (each round consumes at least one byte, so
`CCLEN + 1` is always sufficient). -/
def ccLoop (buf : List Nat) (cclen : Nat) :
    Nat → Nat → List ControlTLV → Except String (List ControlTLV × Nat)
  | rLen, 0, blocks =>
    if rLen < cclen then
      .error "CapabilityContainer.Unmarshal: loop fuel exhausted"
    else .ok (blocks, rLen)
  | rLen, fuel + 1, blocks =>
    if rLen < cclen then do
      let (tlv, parsed) ← TLV.Unmarshal (buf.drop rLen)
      if tlv.T ≠ 0x04 ∧ tlv.T ≠ 0x05 then
        ccLoop buf cclen (rLen + parsed) fuel blocks
      else do
        let (c, parsed2) ← ControlTLV.Unmarshal (buf.drop rLen)
        ccLoop buf cclen (rLen + parsed2) fuel (blocks ++ [c])
    else .ok (blocks, rLen)

/-- `CapabilityContainer.Unmarshal` (2020 generation): 7 header bytes,
the mandatory 8-byte NDEF-file control TLV, then the trailing-TLV loop;
the consumed byte count must equal `CCLEN` and the result must pass
`check`. -/
def CapabilityContainer.Unmarshal (buf : List Nat) :
    Except String (CapabilityContainer × Nat) :=
  if buf.length < 15 then
    .error "CapabilityContainer.Unmarshal: not enough bytes to parse"
  else do
    let cclen := bytesToUint16 (buf.getD 0 0) (buf.getD 1 0)
    let mv := buf.getD 2 0
    let mle := bytesToUint16 (buf.getD 3 0) (buf.getD 4 0)
    let mlc := bytesToUint16 (buf.getD 5 0) (buf.getD 6 0)
    let (fc, _) ← NDEFFileControlTLV.Unmarshal ((buf.drop 7).take 8)
    let (blocks, rLen) ← ccLoop buf cclen 15 (cclen + 1) []
    if rLen ≠ cclen then
      .error "CapabilityContainer.Unmarshal: expected CCLEN bytes"
    else
      let cc : CapabilityContainer := ⟨cclen, mv, mle, mlc, fc, blocks⟩
      if cc.check then .ok (cc, rLen)
      else .error "CapabilityContainer.check: RFU"

/-- The trailing-block serialisation loop of
`CapabilityContainer.Marshal`: blocks that are neither NDEF nor
proprietary control TLVs are skipped. -/
def ccBlocksMarshal : List ControlTLV → Option (List Nat)
  | [] => some []
  | c :: rest =>
    if ¬ c.IsNDEFFileControlTLV ∧ ¬ c.IsPropietaryFileControlTLV then
      ccBlocksMarshal rest
    else do
      let bs ← c.Marshal
      let bs2 ← ccBlocksMarshal rest
      some (bs ++ bs2)

/-- `CapabilityContainer.Marshal` (2020 generation). -/
def CapabilityContainer.Marshal (cc : CapabilityContainer) :
    Option (List Nat) :=
  if cc.check then do
    let fcBytes ← cc.NDEFFileControlTLV.Marshal
    let blockBytes ← ccBlocksMarshal cc.TLVBlocks
    some (u16Bytes cc.CCLEN ++ [cc.MappingVersion] ++ u16Bytes cc.MLe ++
          u16Bytes cc.MLc ++ fcBytes ++ blockBytes)
  else none

/-! ## Static software tag (`tags/static/tag.go`, 2020 generation) -/

/-- `static.defaultNDEFFileID`. -/
def defaultNDEFFileID : Nat := 0xE104

/-- `static.NDEFAPPLICATION`. -/
def NDEFAPPLICATION : Nat := 0xD2760000850101

/-- `static.Tag`: file identifier (0 means "use the default"), the
currently selected file id (0 means none) and the single NDEF file
buffer. -/
structure Tag where
  FileID : Nat
  selectedFileID : Nat
  file : List Nat
deriving Repr, DecidableEq

/-- Go's `s[low:high]` on a byte slice: `none` models the runtime
bounds panic when `¬(0 ≤ low ≤ high ≤ len)`. -/
def goSlice (l : List Nat) (low high : Int) : Option (List Nat) :=
  if 0 ≤ low ∧ low ≤ high ∧ high ≤ (l.length : Int) then
    some ((l.take high.toNat).drop low.toNat)
  else none

/-- The write step of `Tag.doUpdate`: grow the file (zero filled) to
`offset + |data|` when needed, then copy `data` at `offset`. -/
def goWriteAt (f : List Nat) (offset : Nat) (data : List Nat) : List Nat :=
  let f' := if offset + data.length > f.length then
              f ++ List.replicate (offset + data.length - f.length) 0
            else f
  f'.take offset ++ data ++ f'.drop (offset + data.length)

/-- The capability container built inside `Tag.doRead` for a tag whose
(resolved) NDEF file id is `fid`: `CCLEN = 15`, mapping `0x20`,
`MLe = MLc = 0x00FF`, maximum file size `0xFFFE`, both access bytes
`0x00`. -/
def tagCC (fid : Nat) : CapabilityContainer :=
  { CCLEN := 15, MappingVersion := 0x20, MLe := 0x00FF, MLc := 0x00FF,
    NDEFFileControlTLV :=
      ⟨0x04, 0x06, fid, 0xFFFE, 0x00, 0x00⟩,
    TLVBlocks := [] }

/-- `Tag.doSelect`: application select by name, select by file id
(`SW 0x6A87` when `Lc ≠ 2`), otherwise file-not-found.  `none` models
the index panic on `capdu.Data[0]`/`Data[1]` when the data field is
shorter than two bytes. -/
def Tag.doSelect (tag : Tag) (c : CAPDU) : Option (RAPDU × Tag) :=
  if c.P1 = 0x04 ∧ c.P2 = 0x00 ∧ c.GetLc = 0x07 then
    -- copy(data8[1:], capdu.Data) copies min(7, |Data|) bytes into data8[1:8]
    if beBytes
        (0 :: (c.Data.take 7 ++ List.replicate (7 - min 7 c.Data.length) 0)) =
        NDEFAPPLICATION then some (rapduCommandCompleted, tag)
    else some (rapduFileNotFound, tag)
  else if c.P1 = 0x00 ∧ c.P2 = 0x0C then
    if c.GetLc ≠ 2 then some (⟨[], 0x6A, 0x87⟩, tag)
    else
      match c.Data with
      | d0 :: d1 :: _ =>
        let fID := bytesToUint16 d0 d1
        if fID = 0xE103 ∨ (tag.FileID = 0x00 ∧ fID = defaultNDEFFileID) ∨
           (tag.FileID ≠ 0x00 ∧ tag.FileID = fID) then
          some (rapduCommandCompleted, { tag with selectedFileID := fID })
        else some (rapduFileNotFound, tag)
      | _ => none
  else some (rapduFileNotFound, tag)

/-- `Tag.doRead`: serve the capability container or the NDEF file,
clipping the requested window at end of file.  The source computes
`rLen = len(rBytes) - offset` (a Go `int`) when the request overruns;
`none` models the slice panic this produces when `offset` exceeds the
file length. -/
def Tag.doRead (tag : Tag) (c : CAPDU) : Option (RAPDU × Tag) :=
  if tag.selectedFileID = 0x00 then some (rapduFileNotFound, tag)
  else
    let rBytesOpt : Option (List Nat) :=
      if tag.selectedFileID = 0xE103 then
        -- rBytes, _ = cc.Marshal(): a marshalling error leaves rBytes nil
        some ((tagCC (if tag.FileID = 0 then defaultNDEFFileID
                      else tag.FileID)).Marshal.getD [])
      else if tag.selectedFileID = defaultNDEFFileID then
        if tag.FileID ≠ 0 ∧ tag.FileID ≠ defaultNDEFFileID then none
        else some tag.file
      else if tag.selectedFileID = tag.FileID then some tag.file
      else none
    match rBytesOpt with
    | none => some (rapduFileNotFound, tag)
    | some rBytes =>
      let offset : Int := (bytesToUint16 c.P1 c.P2 : Nat)
      let rLen : Int := (c.GetLe : Nat)
      let rLen := if rLen + offset > (rBytes.length : Int) then
                    (rBytes.length : Int) - offset
                  else rLen
      match goSlice rBytes offset (offset + rLen) with
      | none => none
      | some body => some (⟨body, 0x90, 0x00⟩, tag)

/-- `Tag.doUpdate`: writes are only accepted on the NDEF file; the file
grows (zero filled) as needed. -/
def Tag.doUpdate (tag : Tag) (c : CAPDU) : Option (RAPDU × Tag) :=
  if tag.selectedFileID = 0x00 then some (rapduFileNotFound, tag)
  else if tag.selectedFileID = defaultNDEFFileID ∧ tag.FileID ≠ 0 ∧
          tag.FileID ≠ defaultNDEFFileID then
    some (rapduFileNotFound, tag)
  else if tag.selectedFileID ≠ tag.FileID ∧
          tag.selectedFileID ≠ defaultNDEFFileID then
    some (rapduFileNotFound, tag)
  else
    let offset := bytesToUint16 c.P1 c.P2
    some (rapduCommandCompleted, { tag with file := goWriteAt tag.file offset c.Data })

/-- `Tag.Command`: `InactiveState` until initialised (file shorter than
2 bytes), then dispatch on `INS`. -/
def Tag.Command (tag : Tag) (c : CAPDU) : Option (RAPDU × Tag) :=
  if tag.file.length < 2 then some (rapduInactiveState, tag)
  else if c.INS = 0xA4 then tag.doSelect c
  else if c.INS = 0xB0 then tag.doRead c
  else if c.INS = 0xD6 then tag.doUpdate c
  else some (rapduCommandNotAllowed, tag)

/-! ## Command drivers (`drivers/swtag/driver.go`, `drivers/dummy/driver.go`)

A `CommandDriver`'s `TransceiveBytes(tx, rxLen)` is modelled as a state
transformer over the driver's state type `σ`. -/

/-- The `TransceiveBytes` capability of a `CommandDriver`, with its
mutable state made explicit. -/
def Transceive (σ : Type) : Type :=
  σ → List Nat → Nat → Except String (List Nat × σ)

/-- `swtag.Driver.TransceiveBytes`: deserialise the command, run it on
the tag, serialise the reply, and fail when the reply exceeds the
expected length.  A tag-side panic aborts the program; it is modelled
as a distinguished error. -/
def swtagTransceive : Transceive Tag := fun tag tx rxLen =>
  match CAPDU.Unmarshal tx with
  | none => .error "Driver.TransceiveBytes: bad CAPDU"
  | some c =>
    match tag.Command c with
    | none => .error "runtime panic in Tag.Command"
    | some (r, tag') =>
      let rx := r.Marshal
      if rx.length > rxLen then
        .error "Driver.TransceiveBytes: The length of the response is larger than expected"
      else .ok (rx, tag')

/-- `dummy.Driver.TransceiveBytes`: ignore the transmitted bytes and
the expected length, return the next pre-programmed response; error
when the queue is exhausted. -/
def dummyTransceive : Transceive (List (List Nat)) := fun queue _tx _rxLen =>
  match queue with
  | [] => .error "Driver.TransceiveBytes: no data to return"
  | r :: rest => .ok (r, rest)

/-! ## Commander (`commander.go`, 2020 generation) -/

/-- `Commander.Select`: build the select CAPDU, transceive with
`rx_max = Le + 2`, and translate the status words. -/
def commanderSelect {σ : Type} (tr : Transceive σ) (s : σ) (fileID : Nat) :
    Except String σ :=
  let c := NewSelectAPDU fileID
  match c.Marshal with
  | none => .error "CAPDU.Check failed"
  | some bs => do
    let (resp, s') ← tr s bs (c.GetLe + 2)
    match RAPDU.Unmarshal resp with
    | none => .error "RAPDU.Unmarshal: Not enough data to parse response"
    | some r =>
      if r.CommandCompleted then .ok s'
      else if r.FileNotFound then .error "Commander.Select: File not found"
      else .error "Select: Unknown error"

/-- `Commander.ReadBinary`: transceive with `rx_max = length + 2` and
return the response body on success. -/
def commanderReadBinary {σ : Type} (tr : Transceive σ) (s : σ)
    (offset length : Nat) : Except String (List Nat × σ) :=
  let c := NewReadBinaryAPDU offset length
  match c.Marshal with
  | none => .error "CAPDU.Check failed"
  | some bs => do
    let (resp, s') ← tr s bs (length + 2)
    match RAPDU.Unmarshal resp with
    | none => .error "RAPDU.Unmarshal: Not enough data to parse response"
    | some r =>
      if r.CommandCompleted then .ok (r.ResponseBody, s')
      else .error "Commander.ReadBinary: Error"

/-- `Commander.UpdateBinary`: transceive with `rx_max = 2`. -/
def commanderUpdateBinary {σ : Type} (tr : Transceive σ) (s : σ)
    (buf : List Nat) (offset : Nat) : Except String σ :=
  let c := NewUpdateBinaryAPDU buf offset
  match c.Marshal with
  | none => .error "CAPDU.Check failed"
  | some bs => do
    let (resp, s') ← tr s bs 2
    match RAPDU.Unmarshal resp with
    | none => .error "RAPDU.Unmarshal: Not enough data to parse response"
    | some r =>
      if r.CommandCompleted then .ok s'
      else .error "Commander.UpdateBinary: Error"

/-- `Commander.NDEFApplicationSelect`. -/
def commanderNDEFApplicationSelect {σ : Type} (tr : Transceive σ) (s : σ) :
    Except String σ :=
  let c := NewNDEFTagApplicationSelectAPDU
  match c.Marshal with
  | none => .error "CAPDU.Check failed"
  | some bs => do
    let (resp, s') ← tr s bs (c.GetLe + 2)
    match RAPDU.Unmarshal resp with
    | none => .error "RAPDU.Unmarshal: Not enough data to parse response"
    | some r =>
      if r.CommandCompleted then .ok s'
      else if r.FileNotFound then
        .error "Commander.NDEFApplicationSelect: NDEF Tag Application not found"
      else .error "Commander.NDEFApplicationSelect: unknown error"

/-! ## Reader Device procedures (`device.go`, 2020 generation) -/

/-- `tagState`: the value bundle produced by the NDEF detection
procedure. -/
structure DetectState where
  NLEN : Nat
  MaxReadBinaryLen : Nat
  MaxUpdateBinaryLen : Nat
  MaxNDEFLen : Nat
  ReadOnly : Bool
deriving Repr, DecidableEq

/-- `Device.ndefDetectProcedure`: NDEF application select, CC select,
a single `READ_BINARY(0, 15)` of the capability container, CC parse,
readability check, NDEF-file select and NLEN read.  The source indexes
`nlenBytes[0]`/`nlenBytes[1]` without a length check; a short response
is the corresponding index panic, modelled as a distinguished error.
`Nat` subtraction in the `MaxNDEFLen - 2` guard agrees with the Go
`uint16` arithmetic because parsed capability containers always have
`MaximumFileSize ≥ 5`. -/
def ndefDetectProcedure {σ : Type} (tr : Transceive σ) (s : σ) :
    Except String (DetectState × σ) := do
  let s ← commanderNDEFApplicationSelect tr s
  let s ← commanderSelect tr s 0xE103
  let (ccBytes, s) ← commanderReadBinary tr s 0 15
  let (cc, _) ← CapabilityContainer.Unmarshal ccBytes
  if ¬ cc.NDEFFileControlTLV.IsFileReadable then
    .error "Device.Read: NDEF File is marked as not readable."
  else
    let s ← commanderSelect tr s cc.NDEFFileControlTLV.FileID
    let (nlenBytes, s) ← commanderReadBinary tr s 0 2
    match nlenBytes with
    | b0 :: b1 :: _ =>
      let nlen := bytesToUint16 b0 b1
      if nlen > cc.NDEFFileControlTLV.MaximumFileSize - 2 then
        .error "Device.Read: Device is not in a valid state"
      else
        .ok (⟨nlen, cc.MLe, cc.MLc, cc.NDEFFileControlTLV.MaximumFileSize,
              cc.NDEFFileControlTLV.IsFileReadOnly⟩, s)
    | _ => .error "runtime panic: index out of range"

/-- The chunked `ReadBinary` loop of `Device.Read`; `readLen` is the
mutable loop variable of the source and `fuel` bounds the iteration
count (any value above `nlen - totalRead` is sufficient once
`readLen ≥ 1`). -/
def deviceReadLoop {σ : Type} (tr : Transceive σ) (nlen : Nat) :
    σ → Nat → Nat → List Nat → Nat → Except String (List Nat × σ)
  | s, totalRead, _readLen, acc, 0 =>
    if totalRead < nlen then .error "Device.Read: loop fuel exhausted"
    else .ok (acc, s)
  | s, totalRead, readLen, acc, fuel + 1 =>
    if totalRead < nlen then do
      let rl := if nlen - totalRead < readLen then nlen - totalRead
                else readLen
      let (chunk, s') ← commanderReadBinary tr s (2 + totalRead) rl
      deviceReadLoop tr nlen s' (totalRead + rl) rl (acc ++ chunk) fuel
    else .ok (acc, s)

/-- `Device.Read`: detect, then read `NLEN` bytes from offset 2 in
chunks bounded by `MLe`.  The final `ndef.Message.Unmarshal` lives in
the external `go-ndef` package (the spec treats NDEF messages as opaque
byte strings), so the message's marshalled bytes are returned as-is. -/
def deviceRead {σ : Type} (tr : Transceive σ) (s : σ) :
    Except String (List Nat × σ) := do
  let (st, s) ← ndefDetectProcedure tr s
  if st.NLEN = 0 then .error "Device.Read: no NDEF Message detected."
  else
    let readLen := if st.NLEN < st.MaxReadBinaryLen then st.NLEN
                   else st.MaxReadBinaryLen
    deviceReadLoop tr st.NLEN s 0 readLen [] (st.NLEN + 1)

/-- The chunked `UpdateBinary` loop of `Device.Update`; besides the
final driver state it records the `(data, offset)` trace of the issued
writes.  `fuel` bounds the iteration count as in `deviceReadLoop`. -/
def deviceUpdateLoop {σ : Type} (tr : Transceive σ) (msg : List Nat) :
    σ → Nat → Nat → Nat → Except String (σ × List (List Nat × Nat))
  | s, totalWrite, _writeLen, 0 =>
    if totalWrite < msg.length then .error "Device.Update: loop fuel exhausted"
    else .ok (s, [])
  | s, totalWrite, writeLen, fuel + 1 =>
    if totalWrite < msg.length then do
      let wl := if msg.length - totalWrite < writeLen then
                  msg.length - totalWrite
                else writeLen
      let chunk := (msg.drop totalWrite).take wl
      let s' ← commanderUpdateBinary tr s chunk (totalWrite + 2)
      let (s'', rest) ← deviceUpdateLoop tr msg s' (totalWrite + wl) wl fuel
      .ok (s'', (chunk, totalWrite + 2) :: rest)
    else .ok (s, [])

/-- `Device.Update` on the marshalled bytes of the NDEF message (the
`go-ndef` serialisation is external and opaque): detect, reject
read-only tags and oversized messages, write `NLEN = 0`, write the
payload in chunks bounded by `MLc` at offsets starting at 2, and
finally write the real `NLEN`.  The result carries the full
`(data, offset)` trace of the issued `UpdateBinary` commands. -/
def deviceUpdate {σ : Type} (tr : Transceive σ) (s : σ) (msg : List Nat) :
    Except String (σ × List (List Nat × Nat)) := do
  let (st, s) ← ndefDetectProcedure tr s
  if st.ReadOnly then .error "Device.Update: the tag is read-only"
  else if msg.length > st.MaxNDEFLen - 2 then .error "Message is too large"
  else
    let writeLen := if msg.length < st.MaxUpdateBinaryLen then msg.length
                    else st.MaxUpdateBinaryLen
    let s ← commanderUpdateBinary tr s [0x00, 0x00] 0
    let (s, chunkTrace) ← deviceUpdateLoop tr msg s 0 writeLen (msg.length + 1)
    let s ← commanderUpdateBinary tr s (u16Bytes msg.length) 0
    .ok (s, ([0x00, 0x00], 0) :: chunkTrace ++ [(u16Bytes msg.length, 0)])

/-- The bytes `Tag.doRead` serves for the capability-container file of
a tag whose file id field is `fid`. -/
def ccServedBytes (fid : Nat) : List Nat :=
  ((tagCC (if fid = 0 then defaultNDEFFileID else fid)).Marshal).getD []

/-- Well-formedness of the payload-chunk section of an `UpdateBinary`
trace against `msg`: starting at message position `pos`, every entry
writes the next non-empty window of `msg` (of size at most `W`) at file
offset `pos + 2` — hence at strictly increasing offsets starting at
`2` — and the entries jointly cover the rest of the message. -/
def chunksOK (W : Nat) (msg : List Nat) : Nat → List (List Nat × Nat) → Bool
  | pos, [] => decide (msg.length ≤ pos)
  | pos, (d, off) :: t =>
    decide (off = pos + 2) && decide (d = (msg.drop pos).take d.length) &&
    decide (d ≠ []) && decide (d.length ≤ W) &&
    chunksOK W msg (pos + d.length) t

/-- Replay of an `UpdateBinary` `(data, offset)` trace against a file
buffer, using the same write primitive as `Tag.doUpdate`. -/
def applyTrace (f : List Nat) (t : List (List Nat × Nat)) : List Nat :=
  t.foldl (fun g p => goWriteAt g p.2 p.1) f

/-! ## Decoder computation lemmas for the seven ISO 7816-4 body shapes -/

/-- Decoding a body-less buffer (case 1). -/
lemma unmarshal_shape_1 (cla ins p1 p2 : Nat) :
    CAPDU.Unmarshal [cla, ins, p1, p2] =
      (if (⟨cla, ins, p1, p2, [], [], []⟩ : CAPDU).check then
        some ⟨cla, ins, p1, p2, [], [], []⟩ else none) := by
  simp [CAPDU.Unmarshal]

/-- Decoding a 1-byte body (case 2S). -/
lemma unmarshal_shape_2S (cla ins p1 p2 e : Nat) :
    CAPDU.Unmarshal [cla, ins, p1, p2, e] =
      (if (⟨cla, ins, p1, p2, [], [], [e]⟩ : CAPDU).check then
        some ⟨cla, ins, p1, p2, [], [], [e]⟩ else none) := by
  simp [CAPDU.Unmarshal]

/-- Decoding a 3-byte body starting with `0x00` (case 2E). -/
lemma unmarshal_shape_2E (cla ins p1 p2 e2 e3 : Nat) :
    CAPDU.Unmarshal [cla, ins, p1, p2, 0, e2, e3] =
      (if (⟨cla, ins, p1, p2, [], [], [0, e2, e3]⟩ : CAPDU).check then
        some ⟨cla, ins, p1, p2, [], [], [0, e2, e3]⟩ else none) := by
  simp [CAPDU.Unmarshal]

/-- Decoding a short `Lc` with data and no `Le` (case 3S). -/
lemma unmarshal_shape_3S (cla ins p1 p2 n : Nat) (d : List Nat)
    (hn : n ≠ 0) (hd : d.length = n) :
    CAPDU.Unmarshal (cla :: ins :: p1 :: p2 :: n :: d) =
      (if (⟨cla, ins, p1, p2, [n], d, []⟩ : CAPDU).check then
        some ⟨cla, ins, p1, p2, [n], d, []⟩ else none) := by
  have hB : (n :: d).length = 1 + n := by simp [hd]; omega
  have htake : d.take n = d := by
    rw [← hd]; exact List.take_length d
  have hne : ¬ (1 + n = 1) := by omega
  simp only [CAPDU.Unmarshal, hB]
  norm_num [hn, hne]
  rw [htake]

/-- Decoding a short `Lc` with data and a short `Le` (case 4S). -/
lemma unmarshal_shape_4S (cla ins p1 p2 n e : Nat) (d : List Nat)
    (hn : n ≠ 0) (hd : d.length = n) :
    CAPDU.Unmarshal (cla :: ins :: p1 :: p2 :: n :: (d ++ [e])) =
      (if (⟨cla, ins, p1, p2, [n], d, [e]⟩ : CAPDU).check then
        some ⟨cla, ins, p1, p2, [n], d, [e]⟩ else none) := by
  have hB : (n :: (d ++ [e])).length = 2 + n := by simp [hd]; omega
  have htake : (d ++ [e]).take n = d := List.take_left' hd
  have h21 : ¬ (2 + n = 1) := by omega
  have hgetE : (n :: (d ++ [e]))[1 + n]?.getD 0 = e := by
    have h1 : (1 + n) = d.length + 1 := by omega
    rw [h1]
    have h2 : (n :: (d ++ [e]))[d.length + 1]? = (d ++ [e])[d.length]? := by
      simp
    rw [h2, List.getElem?_append_right (le_refl _)]
    simp
  simp only [CAPDU.Unmarshal, hB]
  norm_num [hn, h21]
  rw [htake, hgetE]

/-- Decoding an extended `Lc` with data and no `Le` (case 3E). -/
lemma unmarshal_shape_3E (cla ins p1 p2 y z : Nat) (d : List Nat)
    (hyz : ¬ (y = 0 ∧ z = 0)) (hd : d.length = bytesToUint16 y z) :
    CAPDU.Unmarshal (cla :: ins :: p1 :: p2 :: 0 :: y :: z :: d) =
      (if (⟨cla, ins, p1, p2, [0, y, z], d, []⟩ : CAPDU).check then
        some ⟨cla, ins, p1, p2, [0, y, z], d, []⟩ else none) := by
  have hm : 1 ≤ bytesToUint16 y z := by
    unfold bytesToUint16; rcases Nat.eq_zero_or_pos y with hy | hy
    · rcases Nat.eq_zero_or_pos z with hz | hz
      · exact absurd ⟨hy, hz⟩ hyz
      · omega
    · omega
  have hB : (0 :: y :: z :: d).length = 3 + bytesToUint16 y z := by
    simp [hd]; omega
  have hdata : ((0 :: y :: z :: d).drop 3).take (bytesToUint16 y z) = d := by
    have h0 : (0 :: y :: z :: d).drop 3 = d := rfl
    rw [h0, ← hd]; exact List.take_length d
  have hb1 : (0 :: y :: z :: d).getD 0 0 = 0 := rfl
  have hb2 : (0 :: y :: z :: d).getD 1 0 = y := rfl
  have hb3 : (0 :: y :: z :: d).getD 2 0 = z := rfl
  have hc1 : ¬ (3 + bytesToUint16 y z = 0) := by omega
  have hc2 : ¬ (3 + bytesToUint16 y z = 1) := by omega
  have hc5 : ¬ (3 + bytesToUint16 y z = 3) := by omega
  simp only [CAPDU.Unmarshal, hB, hb1, hb2, hb3, hdata]
  simp [hc1, hc2, hc5, hyz]

/-- Decoding an extended `Lc` with data and a 2-byte `Le` (case 4E). -/
lemma unmarshal_shape_4E (cla ins p1 p2 y z e1 e2 : Nat) (d : List Nat)
    (hyz : ¬ (y = 0 ∧ z = 0)) (hd : d.length = bytesToUint16 y z) :
    CAPDU.Unmarshal (cla :: ins :: p1 :: p2 :: 0 :: y :: z :: (d ++ [e1, e2])) =
      (if (⟨cla, ins, p1, p2, [0, y, z], d, [e1, e2]⟩ : CAPDU).check then
        some ⟨cla, ins, p1, p2, [0, y, z], d, [e1, e2]⟩ else none) := by
  have hm : 1 ≤ bytesToUint16 y z := by
    unfold bytesToUint16; rcases Nat.eq_zero_or_pos y with hy | hy
    · rcases Nat.eq_zero_or_pos z with hz | hz
      · exact absurd ⟨hy, hz⟩ hyz
      · omega
    · omega
  have hB : (0 :: y :: z :: (d ++ [e1, e2])).length = 5 + bytesToUint16 y z := by
    simp [hd]; omega
  have hdropLe : (d ++ [e1, e2]).drop (bytesToUint16 y z) = [e1, e2] := by
    rw [← hd]; exact List.drop_left d [e1, e2]
  have hdata :
      ((0 :: y :: z :: (d ++ [e1, e2])).drop 3).take (bytesToUint16 y z) = d := by
    have h0 : (0 :: y :: z :: (d ++ [e1, e2])).drop 3 = d ++ [e1, e2] := rfl
    rw [h0, ← hd]; exact List.take_left d [e1, e2]
  have hle :
      ((0 :: y :: z :: (d ++ [e1, e2])).drop (3 + bytesToUint16 y z)).take 2 =
        [e1, e2] := by
    rw [← List.drop_drop]
    have h0 : (0 :: y :: z :: (d ++ [e1, e2])).drop 3 = d ++ [e1, e2] := rfl
    rw [h0, hdropLe]
    rfl
  have hb1 : (0 :: y :: z :: (d ++ [e1, e2])).getD 0 0 = 0 := rfl
  have hb2 : (0 :: y :: z :: (d ++ [e1, e2])).getD 1 0 = y := rfl
  have hb3 : (0 :: y :: z :: (d ++ [e1, e2])).getD 2 0 = z := rfl
  have hc1 : ¬ (5 + bytesToUint16 y z = 0) := by omega
  have hc2 : ¬ (5 + bytesToUint16 y z = 1) := by omega
  have hc5 : ¬ (5 + bytesToUint16 y z = 3) := by omega
  have hc6 : ¬ (5 + bytesToUint16 y z = 3 + bytesToUint16 y z) := by omega
  simp only [CAPDU.Unmarshal, hB, hb1, hb2, hb3, hdata, hle]
  simp [hc1, hc2, hc5, hc6, hyz]

end NT4

namespace NT4

/-! ## Claim C1: CAPDU marshal/unmarshal round trip -/

/-- C1 counterexample: the CAPDU with `Lc = [0x01]`, one data byte and a
2-byte `Le` satisfies every shape invariant of `CAPDU.check` (a 2-byte
`Le` together with a non-empty `Lc` is accepted), yet no decoder case
matches its marshalled form, so `Unmarshal (Marshal a)` returns the
reset CAPDU instead of `a`: the round trip of the claim fails. -/
theorem capdu_roundtrip_counterexample :
    CAPDU.check ⟨0, 0, 0, 0, [1], [170], [1, 0]⟩ = true ∧
    (CAPDU.Marshal ⟨0, 0, 0, 0, [1], [170], [1, 0]⟩).bind CAPDU.Unmarshal ≠
      some ⟨0, 0, 0, 0, [1], [170], [1, 0]⟩ := by
  decide

/-- C1 (amended): for every CAPDU satisfying the `check` invariants
whose `(Lc, Le)` byte-shape moreover avoids the two combinations that no
ISO 7816-4 case covers (1-byte `Lc` with 2-byte `Le`, and 3-byte `Lc`
with 1-byte `Le`), `Marshal` succeeds and `Unmarshal` of the marshalled
bytes returns the original CAPDU. -/
theorem capdu_roundtrip_amended (a : CAPDU) (h : a.check = true)
    (h12 : ¬ (a.Lc.length = 1 ∧ a.Le.length = 2))
    (h31 : ¬ (a.Lc.length = 3 ∧ a.Le.length = 1)) :
    ∃ bs, a.Marshal = some bs ∧ CAPDU.Unmarshal bs = some a := by
  obtain ⟨cla, ins, p1, p2, lc, d, le⟩ := a
  refine ⟨[cla, ins, p1, p2] ++ lc ++ d ++ le, by simp [CAPDU.Marshal, h], ?_⟩
  have hck := h
  simp only [CAPDU.check, Bool.and_eq_true, decide_eq_true_eq] at hck
  obtain ⟨⟨hlc, hle⟩, hdata⟩ := hck
  rcases lc with _ | ⟨n, _ | ⟨m, _ | ⟨k, _ | ⟨k2, lcrest⟩⟩⟩⟩
  · -- Lc = []
    have hd0 : d = [] := by
      simp only [CAPDU.GetLc] at hdata
      exact (List.length_eq_zero.mp hdata.symm)
    subst hd0
    rcases le with _ | ⟨e, _ | ⟨e2, _ | ⟨e3, _ | ⟨e4, lerest⟩⟩⟩⟩
    · simpa using (unmarshal_shape_1 cla ins p1 p2).trans (if_pos h)
    · simpa using (unmarshal_shape_2S cla ins p1 p2 e).trans (if_pos h)
    · simp [CAPDU.leValid] at hle
    · have he : e = 0 := by
        simp only [CAPDU.leValid, decide_eq_true_eq] at hle
        exact hle.2
      subst he
      simpa using (unmarshal_shape_2E cla ins p1 p2 e2 e3).trans (if_pos h)
    · simp [CAPDU.leValid] at hle
  · -- Lc = [n]
    have hn : n ≠ 0 := by
      simp only [CAPDU.lcValid, decide_eq_true_eq] at hlc
      exact hlc
    have hd : d.length = n := by
      simp only [CAPDU.GetLc] at hdata
      exact hdata.symm
    rcases le with _ | ⟨e, _ | ⟨e2, _ | ⟨e3, _ | ⟨e4, lerest⟩⟩⟩⟩
    · simpa using (unmarshal_shape_3S cla ins p1 p2 n d hn hd).trans (if_pos h)
    · simpa using (unmarshal_shape_4S cla ins p1 p2 n e d hn hd).trans (if_pos h)
    · exact absurd ⟨rfl, rfl⟩ h12
    · simp [CAPDU.leValid] at hle
    · simp [CAPDU.leValid] at hle
  · -- Lc two bytes: rejected by check
    simp [CAPDU.lcValid] at hlc
  · -- Lc = [n, m, k]
    have hn0 : n = 0 ∧ ¬ (m = 0 ∧ k = 0) := by
      simp only [CAPDU.lcValid, decide_eq_true_eq] at hlc
      exact hlc
    obtain ⟨hn0, hmk⟩ := hn0
    subst hn0
    have hd : d.length = bytesToUint16 m k := by
      simp only [CAPDU.GetLc] at hdata
      exact hdata.symm
    rcases le with _ | ⟨e, _ | ⟨e2, _ | ⟨e3, _ | ⟨e4, lerest⟩⟩⟩⟩
    · simpa using (unmarshal_shape_3E cla ins p1 p2 m k d hmk hd).trans (if_pos h)
    · exact absurd ⟨rfl, rfl⟩ h31
    · simpa using (unmarshal_shape_4E cla ins p1 p2 m k e e2 d hmk hd).trans (if_pos h)
    · simp [CAPDU.leValid] at hle
    · simp [CAPDU.leValid] at hle
  · -- Lc four or more bytes: rejected by check
    simp [CAPDU.lcValid] at hlc

/-- Witness for C1 (amended) at a concrete case-4S CAPDU. -/
theorem capdu_roundtrip_amended_witness :
    ∃ bs, (⟨0, 164, 0, 12, [2], [225, 3], [16]⟩ : CAPDU).Marshal = some bs ∧
      CAPDU.Unmarshal bs = some ⟨0, 164, 0, 12, [2], [225, 3], [16]⟩ :=
  capdu_roundtrip_amended ⟨0, 164, 0, 12, [2], [225, 3], [16]⟩
    (by decide) (by decide) (by decide)

/-! ## Claim C8: CAPDU.GetLe numeric interpretation -/

/-- C8: `GetLe` returns 0 for an empty `Le`; 256 for a 1-byte `0x00`
and the byte value otherwise; 65535 for a 2-byte `0x0000` (saturating
the nominal 65536) and the big-endian 16-bit value otherwise; and the
big-endian value of the last two bytes for a 3-byte `Le`. -/
theorem getLe_spec (a : CAPDU) :
    (a.Le = [] → a.GetLe = 0) ∧
    (∀ b, a.Le = [b] → a.GetLe = if b = 0 then 256 else b) ∧
    (∀ b0 b1, a.Le = [b0, b1] →
      a.GetLe = if b0 = 0 ∧ b1 = 0 then 65535 else 256 * b0 + b1) ∧
    (∀ b0 b1 b2, a.Le = [b0, b1, b2] → a.GetLe = 256 * b1 + b2) := by
  refine ⟨fun h => ?_, fun b h => ?_, fun b0 b1 h => ?_, fun b0 b1 b2 h => ?_⟩ <;>
    simp [CAPDU.GetLe, h, bytesToUint16]

/-- Witness for C8 at the saturating two-byte `Le` `[0, 0]`. -/
theorem getLe_spec_witness :
    CAPDU.GetLe ⟨0, 0, 0, 0, [], [], [0, 0]⟩ = 65535 := by
  have h := (getLe_spec ⟨0, 0, 0, 0, [], [], [0, 0]⟩).2.2.1 0 0 rfl
  simpa using h

end NT4

namespace NT4

/-- `bytesToUint16` inverts `u16hi`/`u16lo` on 16-bit values. -/
lemma bytesToUint16_u16 (n : Nat) (h : n < 65536) :
    bytesToUint16 (u16hi n) (u16lo n) = n := by
  unfold bytesToUint16 u16hi u16lo
  omega

/-! ## Claim C7: the default capability container of the static tag -/

/-- C7 counterexample: on a default static tag (FileID 0) with the CC
selected, a `READ_BINARY(0, 15)` serves a capability container whose
`MLe`/`MLc` are `0x00FF` (not the claimed `0x000F`) and whose NDEF
Control-TLV points at file id `0xE104` (not the claimed `0x8888`). -/
theorem default_cc_counterexample :
    Tag.Command ⟨0, 0xE103, [0, 0]⟩ ⟨0, 0xB0, 0, 0, [], [], [15]⟩ =
      some (⟨[0x00, 0x0F, 0x20, 0x00, 0xFF, 0x00, 0xFF, 0x04, 0x06, 0xE1,
              0x04, 0xFF, 0xFE, 0x00, 0x00], 0x90, 0x00⟩,
            ⟨0, 0xE103, [0, 0]⟩) ∧
    (tagCC defaultNDEFFileID).MLe ≠ 0x000F ∧
    (tagCC defaultNDEFFileID).MLc ≠ 0x000F ∧
    (tagCC defaultNDEFFileID).NDEFFileControlTLV.FileID ≠ 0x8888 := by
  decide

/-- C7 (amended): the default capability container served by the static
software tag declares `cclen = 15`, mapping version `0x20`,
`MLe = 0x00FF`, `MLc = 0x00FF` and exactly one NDEF Control-TLV with
file id `0xE104`, `max_file_size = 0xFFFE` and both access bytes
`0x00`; any initialised tag with the CC selected serves exactly its
marshalled bytes. -/
theorem default_cc_amended :
    tagCC defaultNDEFFileID =
      ⟨15, 0x20, 0x00FF, 0x00FF, ⟨0x04, 0x06, 0xE104, 0xFFFE, 0x00, 0x00⟩, []⟩ ∧
    (tagCC defaultNDEFFileID).Marshal =
      some [0x00, 0x0F, 0x20, 0x00, 0xFF, 0x00, 0xFF, 0x04, 0x06, 0xE1,
            0x04, 0xFF, 0xFE, 0x00, 0x00] ∧
    (∀ f : List Nat, 2 ≤ f.length →
      Tag.Command ⟨0, 0xE103, f⟩ (NewReadBinaryAPDU 0 15) =
        some (⟨[0x00, 0x0F, 0x20, 0x00, 0xFF, 0x00, 0xFF, 0x04, 0x06, 0xE1,
                0x04, 0xFF, 0xFE, 0x00, 0x00], 0x90, 0x00⟩,
              ⟨0, 0xE103, f⟩)) := by
  refine ⟨by decide, by decide, fun f hf => ?_⟩
  have h2 : ¬ f.length < 2 := by omega
  simp only [Tag.Command, h2, if_false]
  norm_num [NewReadBinaryAPDU, Tag.doRead, tagCC, setLeBytes, u16hi, u16lo,
    CAPDU.GetLe, bytesToUint16, goSlice, CapabilityContainer.Marshal,
    CapabilityContainer.check, ControlTLV.check, ControlTLV.Marshal,
    TLV.Marshal, TLV.check, ccBlocksMarshal, u16Bytes, defaultNDEFFileID]

/-- Witness for C7 (amended) on a freshly initialised tag file. -/
theorem default_cc_amended_witness :
    Tag.Command ⟨0, 0xE103, [0, 0]⟩ (NewReadBinaryAPDU 0 15) =
      some (⟨[0x00, 0x0F, 0x20, 0x00, 0xFF, 0x00, 0xFF, 0x04, 0x06, 0xE1,
              0x04, 0xFF, 0xFE, 0x00, 0x00], 0x90, 0x00⟩,
            ⟨0, 0xE103, [0, 0]⟩) :=
  default_cc_amended.2.2 [0, 0] (by decide)

/-! ## Claim C6: UPDATE_BINARY with the capability container selected -/

/-- C6 counterexample: an initialised default tag with the CC (file id
`0xE103`) selected answers an UPDATE_BINARY with the FileNotFound RAPDU
(`SW1 0x6A, SW2 0x82`), not the CommandNotAllowed RAPDU
(`SW1 0x69, SW2 0x00`) required by the claim. -/
theorem update_cc_counterexample :
    Tag.Command ⟨0, 0xE103, [0, 0]⟩ ⟨0, 0xD6, 0, 0, [1], [171], []⟩ =
      some (rapduFileNotFound, ⟨0, 0xE103, [0, 0]⟩) ∧
    rapduFileNotFound.SW1 ≠ 0x69 := by
  decide

/-- C6 (amended): for every UPDATE_BINARY CAPDU processed by an
initialised static tag whose selected file is the capability container
(and whose `FileID` field is not `0xE103` itself), `Tag.Command`
returns the FileNotFound RAPDU (`SW1 0x6A, SW2 0x82`) and leaves the
tag — in particular its file store — unchanged. -/
theorem update_cc_amended (tag : Tag) (c : CAPDU)
    (hfile : 2 ≤ tag.file.length) (hsel : tag.selectedFileID = 0xE103)
    (hfid : tag.FileID ≠ 0xE103) (hins : c.INS = 0xD6) :
    Tag.Command tag c = some (rapduFileNotFound, tag) := by
  have h2 : ¬ tag.file.length < 2 := by omega
  simp [Tag.Command, Tag.doUpdate, defaultNDEFFileID, h2, hins, hsel,
    Ne.symm hfid]

/-- Witness for C6 (amended) at a concrete tag and UPDATE command. -/
theorem update_cc_amended_witness :
    Tag.Command ⟨0, 0xE103, [0, 0, 7]⟩ ⟨0, 0xD6, 0, 2, [1], [171], []⟩ =
      some (rapduFileNotFound, ⟨0, 0xE103, [0, 0, 7]⟩) :=
  update_cc_amended ⟨0, 0xE103, [0, 0, 7]⟩ ⟨0, 0xD6, 0, 2, [1], [171], []⟩
    (by decide) (by decide) (by decide) (by decide)

/-! ## Claim C9: READ_BINARY beyond end of file -/

/-- C9: the claim that `Tag.Command` never panics on READ_BINARY fails:
with the 15-byte capability container selected, a read at offset
`0x0010` makes `doRead` compute the negative window length
`15 - 16` and evaluate the slice `rBytes[16:15]`, a Go runtime panic
(modelled as `none`) instead of the clipped CommandCompleted response
required by the claim. -/
theorem read_past_eof_panics :
    Tag.Command ⟨0, 0xE103, [0, 0]⟩ ⟨0, 0xB0, 0x00, 0x10, [], [], [1]⟩ =
      none := by
  decide

/-! ## Claim C2: capability containers longer than 15 bytes -/

/-- The `long_cc_ok` scripted response sequence of `device_test.go`
(CCLEN = `0x17`, one trailing Control-TLV served by a second read). -/
def longCCOkResponses : List (List Nat) :=
  [[0x90, 0x00],
   [0x90, 0x00],
   [0x00, 0x17, 0x20, 0x01, 0x00, 0x00, 0xFF, 0x04, 0x06, 0xE1, 0x04, 0x01,
    0x00, 0x00, 0x00, 0x90, 0x00],
   [0x05, 0x06, 0xE1, 0x05, 0x00, 0x80, 0x82, 0x83, 0x90, 0x00],
   [0x90, 0x00],
   [0x00, 0x10, 0x90, 0x00],
   [0xD1, 0x01, 0x0C, 0x55, 0x04, 0x65, 0x78, 0x61, 0x6D, 0x70, 0x6C, 0x65,
    0x2E, 0x63, 0x6F, 0x6D, 0x90, 0x00]]

/-- C2: contrary to the claim (and to the in-tree `long_cc_ok` test,
which expects `Device.Read` to succeed), the NDEF detection procedure
issues only the single `READ_BINARY(0, 15)` and then fails to parse the
truncated 23-byte capability container: the trailing-TLV loop runs out
of data, so `Device.Read` returns an error on the `long_cc_ok`
response sequence instead of looping for the remaining
`cclen - 15` bytes. -/
theorem long_cc_detect_fails :
    ndefDetectProcedure dummyTransceive longCCOkResponses =
      .error "TLV.Unmarshal: Unexpected end of data" ∧
    deviceRead dummyTransceive longCCOkResponses =
      .error "TLV.Unmarshal: Unexpected end of data" :=
  ⟨rfl, rfl⟩

end NT4

namespace NT4

/-- Binding a successful `Except` computation just applies the
continuation. -/
lemma exceptOkBind {eps alpha beta : Type} (a : alpha)
    (f : alpha → Except eps beta) : (Except.ok a >>= f) = f a := rfl

/-- The trailing-TLV loop returns the collected blocks unchanged once
`CCLEN` bytes are consumed. -/
lemma ccLoop_stop (buf : List Nat) (cclen rLen fuel : Nat)
    (blocks : List ControlTLV) (h : ¬ rLen < cclen) :
    ccLoop buf cclen rLen fuel blocks = .ok (blocks, rLen) := by
  cases fuel <;> simp [ccLoop, h]

/-- `ccBlocksMarshal` only ever emits the control blocks, so filtering
the non-control blocks away first does not change its output. -/
lemma ccBlocksMarshal_filter (l : List ControlTLV) :
    ccBlocksMarshal l =
      ccBlocksMarshal (l.filter fun b =>
        b.IsNDEFFileControlTLV || b.IsPropietaryFileControlTLV) := by
  induction l with
  | nil => rfl
  | cons c rest ih =>
    by_cases h1 : c.IsNDEFFileControlTLV = true
    · have hcond : ¬ (¬ c.IsNDEFFileControlTLV = true ∧
          ¬ c.IsPropietaryFileControlTLV = true) := by simp [h1]
      simp [ccBlocksMarshal, List.filter_cons, h1, hcond, ih]
    · by_cases h2 : c.IsPropietaryFileControlTLV = true
      · have hcond : ¬ (¬ c.IsNDEFFileControlTLV = true ∧
            ¬ c.IsPropietaryFileControlTLV = true) := by simp [h2]
        simp [ccBlocksMarshal, List.filter_cons, h1, h2, hcond, ih]
      · simp [ccBlocksMarshal, List.filter_cons, h1, h2, ih]

/-- Dropping the non-control trailing blocks preserves
`CapabilityContainer.check`. -/
lemma check_filter (cc : CapabilityContainer) (h : cc.check = true) :
    CapabilityContainer.check
      { cc with TLVBlocks := cc.TLVBlocks.filter fun b =>
          b.IsNDEFFileControlTLV || b.IsPropietaryFileControlTLV } = true := by
  simp only [CapabilityContainer.check, Bool.and_eq_true] at h ⊢
  obtain ⟨⟨⟨⟨h1, h2⟩, h3⟩, h4⟩, h5⟩ := h
  refine ⟨⟨⟨⟨h1, h2⟩, h3⟩, h4⟩, ?_⟩
  rw [List.all_eq_true] at h5 ⊢
  intro x hx
  exact h5 x (List.mem_of_mem_filter hx)

/-- C5: on decode, a trailing TLV block whose `T` byte is neither
`0x04` nor `0x05` is consumed over its full byte span and silently
dropped — the capability container parses successfully with
`TLVBlocks = []` and exactly `CCLEN` consumed bytes; and on encode,
`CapabilityContainer.Marshal` omits every in-memory trailing block
whose `T` is neither `0x04` nor `0x05` (its output equals that of the
container with those blocks filtered away). -/
theorem cc_trailing_tlv_skip_and_omit (t : Nat) (v : List Nat)
    (cc : CapabilityContainer) (ht4 : t ≠ 0x04) (ht5 : t ≠ 0x05)
    (hv : v.length < 255) (hcc : cc.check = true) :
    CapabilityContainer.Unmarshal
        (u16hi (17 + v.length) :: u16lo (17 + v.length) :: 0x20 :: 0x00 ::
         0xFF :: 0x00 :: 0xFF :: 0x04 :: 0x06 :: 0xE1 :: 0x04 :: 0xFF ::
         0xFE :: 0x00 :: 0x00 :: t :: v.length :: v) =
      .ok (⟨17 + v.length, 0x20, 0x00FF, 0x00FF,
            ⟨0x04, 0x06, 0xE104, 0xFFFE, 0x00, 0x00⟩, []⟩, 17 + v.length) ∧
    CapabilityContainer.Marshal cc =
      CapabilityContainer.Marshal
        { cc with TLVBlocks := cc.TLVBlocks.filter fun b =>
            b.IsNDEFFileControlTLV || b.IsPropietaryFileControlTLV } := by
  constructor
  · set N := 17 + v.length with hN
    set buf : List Nat :=
      u16hi N :: u16lo N :: 0x20 :: 0x00 :: 0xFF :: 0x00 :: 0xFF :: 0x04 ::
      0x06 :: 0xE1 :: 0x04 :: 0xFF :: 0xFE :: 0x00 :: 0x00 :: t ::
      v.length :: v with hbuf
    have hlen : buf.length = N := by simp [hbuf, hN]; omega
    have hge : ¬ buf.length < 15 := by rw [hlen]; omega
    have hcclen : bytesToUint16 (buf[0]?.getD 0) (buf[1]?.getD 0) = N :=
      bytesToUint16_u16 N (by omega)
    have hmv : buf[2]?.getD 0 = 0x20 := rfl
    have hmle : bytesToUint16 (buf[3]?.getD 0) (buf[4]?.getD 0) = 0x00FF := rfl
    have hmlc : bytesToUint16 (buf[5]?.getD 0) (buf[6]?.getD 0) = 0x00FF := rfl
    have hfcparse : NDEFFileControlTLV.Unmarshal ((buf.drop 7).take 8) =
        .ok (⟨0x04, 0x06, 0xE104, 0xFFFE, 0x00, 0x00⟩, 8) := rfl
    have hdrop15 : buf.drop 15 = t :: v.length :: v := rfl
    have htlv : TLV.Unmarshal (t :: v.length :: v) =
        .ok (⟨t, v.length, v⟩, 2 + v.length) := by
      have hne : ¬ (v.length = 0xFF) := by omega
      have hlt : ¬ (v.length < v.length) := by omega
      simp [TLV.Unmarshal, hne, hlt]
    have hsum : 15 + (2 + v.length) = N := by omega
    have hloop : ccLoop buf N 15 (N + 1) [] = .ok ([], N) := by
      rw [show N + 1 = (17 + v.length) + 1 from rfl]
      simp only [ccLoop]
      rw [if_pos (by omega : 15 < N)]
      simp only [hdrop15, htlv]
      simp only [exceptOkBind, ht4, ht5, ne_eq, not_false_iff, and_self,
        if_true, hsum]
      exact ccLoop_stop buf N N (17 + v.length) [] (by omega)
    have hcheck : (⟨N, 0x20, 0x00FF, 0x00FF,
        ⟨0x04, 0x06, 0xE104, 0xFFFE, 0x00, 0x00⟩, []⟩ :
          CapabilityContainer).check = true := by
      simp [CapabilityContainer.check, ControlTLV.check]
      omega
    simp [CapabilityContainer.Unmarshal, hge, hcclen, hmv, hmle, hmlc,
      hfcparse, hloop, hcheck, exceptOkBind]
  · simp only [CapabilityContainer.Marshal, hcc, check_filter cc hcc, if_true]
    rw [ccBlocksMarshal_filter]

/-- Witness for C5 with `t = 0x07`, an empty trailing value and a
container holding one proprietary-typed and one reserved-typed block. -/
theorem cc_trailing_tlv_witness :
    CapabilityContainer.Unmarshal
        (u16hi 17 :: u16lo 17 :: 0x20 :: 0x00 :: 0xFF :: 0x00 :: 0xFF ::
         0x04 :: 0x06 :: 0xE1 :: 0x04 :: 0xFF :: 0xFE :: 0x00 :: 0x00 ::
         0x07 :: 0 :: []) =
      .ok (⟨17, 0x20, 0x00FF, 0x00FF,
            ⟨0x04, 0x06, 0xE104, 0xFFFE, 0x00, 0x00⟩, []⟩, 17) ∧
    CapabilityContainer.Marshal
        ⟨15, 0x20, 0x00FF, 0x00FF, ⟨0x04, 0x06, 0xE104, 0xFFFE, 0x00, 0x00⟩,
         [⟨0x09, 0x06, 0x1234, 100, 0x00, 0x00⟩]⟩ =
      CapabilityContainer.Marshal
        { (⟨15, 0x20, 0x00FF, 0x00FF,
            ⟨0x04, 0x06, 0xE104, 0xFFFE, 0x00, 0x00⟩,
            [⟨0x09, 0x06, 0x1234, 100, 0x00, 0x00⟩]⟩ : CapabilityContainer)
          with TLVBlocks :=
            (List.filter
              (fun b => b.IsNDEFFileControlTLV ||
                b.IsPropietaryFileControlTLV)
              [(⟨0x09, 0x06, 0x1234, 100, 0x00, 0x00⟩ : ControlTLV)]) } :=
  cc_trailing_tlv_skip_and_omit 0x07 []
    ⟨15, 0x20, 0x00FF, 0x00FF, ⟨0x04, 0x06, 0xE104, 0xFFFE, 0x00, 0x00⟩,
     [⟨0x09, 0x06, 0x1234, 100, 0x00, 0x00⟩]⟩
    (by decide) (by decide) (by decide) (by decide)

end NT4

namespace NT4

/-! ## Claim C10: frame conditions of the static tag dispatcher -/

/-- `goWriteAt` never shrinks the file. -/
lemma goWriteAt_length (f : List Nat) (off : Nat) (d : List Nat) :
    (goWriteAt f off d).length = max f.length (off + d.length) := by
  unfold goWriteAt
  by_cases h : off + d.length > f.length <;> simp [h] <;> omega

/-- `goWriteAt` preserves every byte outside the written range. -/
lemma goWriteAt_getElem_outside (f : List Nat) (off : Nat) (d : List Nat)
    (i : Nat) (hi : i < f.length) (hout : i < off ∨ off + d.length ≤ i) :
    (goWriteAt f off d)[i]? = f[i]? := by
  unfold goWriteAt
  set f' := if off + d.length > f.length then
      f ++ List.replicate (off + d.length - f.length) 0 else f with hfpd
  have hlenf' : f'.length = max f.length (off + d.length) := by
    rw [hfpd]; by_cases h : off + d.length > f.length <;> simp [h] <;> omega
  have hgetf' : f'[i]? = f[i]? := by
    rw [hfpd]; by_cases h : off + d.length > f.length
    · simp only [h, if_true, ite_true]
      exact List.getElem?_append_left hi
    · simp [h]
  have htakelen : (f'.take off).length = min off f'.length := by simp
  have hminoff : min off f'.length = off := by omega
  rcases hout with hlt | hge
  · rw [List.getElem?_append_left
        (by simp only [List.length_append, htakelen, hminoff]; omega),
      List.getElem?_append_left (by simp only [htakelen, hminoff]; omega),
      List.getElem?_take_of_lt hlt, hgetf']
  · rw [List.getElem?_append_right
        (by simp only [List.length_append, htakelen, hminoff]; omega)]
    simp only [List.length_append, htakelen, hminoff]
    rw [List.getElem?_drop]
    have h2 : off + d.length + (i - (off + d.length)) = i := by omega
    rw [h2, hgetf']

/-- `Tag.doSelect` either leaves the tag unchanged or performs a
successful select-by-id that only rewrites `selectedFileID`. -/
lemma doSelect_cases (tag : Tag) (c : CAPDU) (r : RAPDU) (tag' : Tag)
    (h : tag.doSelect c = some (r, tag')) :
    tag' = tag ∨
    (c.P1 = 0x00 ∧ c.P2 = 0x0C ∧ c.GetLc = 2 ∧
     r = rapduCommandCompleted ∧ tag'.file = tag.file ∧
     tag'.FileID = tag.FileID ∧
     tag'.selectedFileID = bytesToUint16 (c.Data.getD 0 0) (c.Data.getD 1 0) ∧
     (tag'.selectedFileID = 0xE103 ∨
      (tag.FileID = 0 ∧ tag'.selectedFileID = defaultNDEFFileID) ∨
      (tag.FileID ≠ 0 ∧ tag'.selectedFileID = tag.FileID))) := by
  unfold Tag.doSelect at h
  dsimp only at h
  split at h
  · split at h <;>
      · simp only [Option.some.injEq, Prod.mk.injEq] at h
        exact Or.inl h.2.symm
  · split at h
    · rename_i hp
      split at h
      · simp only [Option.some.injEq, Prod.mk.injEq] at h
        exact Or.inl h.2.symm
      · rename_i hlc2
        split at h
        · rename_i d0 d1 rest hdata
          split at h
          · rename_i hhit
            simp only [Option.some.injEq, Prod.mk.injEq] at h
            obtain ⟨hr, htag⟩ := h
            push_neg at hlc2
            refine Or.inr ⟨hp.1, hp.2, hlc2, hr.symm, ?_, ?_, ?_, ?_⟩
            · rw [← htag]
            · rw [← htag]
            · rw [← htag, hdata]
              rfl
            · rw [← htag]
              rcases hhit with hh | hh | hh
              · exact Or.inl hh
              · exact Or.inr (Or.inl hh)
              · exact Or.inr (Or.inr ⟨hh.1, hh.2.symm⟩)
          · simp only [Option.some.injEq, Prod.mk.injEq] at h
            exact Or.inl h.2.symm
        · exact absurd h (by simp)
    · simp only [Option.some.injEq, Prod.mk.injEq] at h
      exact Or.inl h.2.symm

/-- A non-panicking `Tag.doRead` never changes the tag. -/
lemma doRead_preserves (tag : Tag) (c : CAPDU) (r : RAPDU) (tag' : Tag)
    (h : tag.doRead c = some (r, tag')) : tag' = tag := by
  unfold Tag.doRead at h
  dsimp only at h
  split at h
  · simp only [Option.some.injEq, Prod.mk.injEq] at h
    exact h.2.symm
  · split at h
    · simp only [Option.some.injEq, Prod.mk.injEq] at h
      exact h.2.symm
    · split at h
      · exact absurd h (by simp)
      · simp only [Option.some.injEq, Prod.mk.injEq] at h
        exact h.2.symm

/-- `Tag.doUpdate` either leaves the tag unchanged or rewrites only the
file through `goWriteAt`. -/
lemma doUpdate_cases (tag : Tag) (c : CAPDU) (r : RAPDU) (tag' : Tag)
    (h : tag.doUpdate c = some (r, tag')) :
    tag' = tag ∨
    tag' = { tag with
      file := goWriteAt tag.file (bytesToUint16 c.P1 c.P2) c.Data } := by
  unfold Tag.doUpdate at h
  dsimp only at h
  split at h
  · simp only [Option.some.injEq, Prod.mk.injEq] at h
    exact Or.inl h.2.symm
  · split at h
    · simp only [Option.some.injEq, Prod.mk.injEq] at h
      exact Or.inl h.2.symm
    · split at h
      · simp only [Option.some.injEq, Prod.mk.injEq] at h
        exact Or.inl h.2.symm
      · simp only [Option.some.injEq, Prod.mk.injEq] at h
        exact Or.inr h.2.symm

/-- C10: for the static software tag, the only command that changes
`selectedFileID` is a SELECT-by-file-id that finds the file (and it
touches nothing else); READ_BINARY leaves the whole tag unchanged; and
UPDATE_BINARY never decreases the file's length, preserves all file
bytes outside the written range `[P1P2, P1P2 + |Data|)` and leaves the
selection unchanged. -/
theorem tag_frame_conditions (tag tag' : Tag) (c : CAPDU) (r : RAPDU)
    (h : Tag.Command tag c = some (r, tag')) :
    (tag'.selectedFileID ≠ tag.selectedFileID →
      c.INS = 0xA4 ∧ c.P1 = 0x00 ∧ c.P2 = 0x0C ∧ c.GetLc = 2 ∧
      r = rapduCommandCompleted ∧ tag'.file = tag.file ∧
      tag'.FileID = tag.FileID ∧
      tag'.selectedFileID = bytesToUint16 (c.Data.getD 0 0) (c.Data.getD 1 0) ∧
      (tag'.selectedFileID = 0xE103 ∨
       (tag.FileID = 0 ∧ tag'.selectedFileID = defaultNDEFFileID) ∨
       (tag.FileID ≠ 0 ∧ tag'.selectedFileID = tag.FileID))) ∧
    (c.INS = 0xB0 → tag' = tag) ∧
    (c.INS = 0xD6 →
      tag'.selectedFileID = tag.selectedFileID ∧
      tag.file.length ≤ tag'.file.length ∧
      (∀ i, i < tag.file.length →
        (i < bytesToUint16 c.P1 c.P2 ∨
         bytesToUint16 c.P1 c.P2 + c.Data.length ≤ i) →
        tag'.file[i]? = tag.file[i]?)) := by
  unfold Tag.Command at h
  by_cases hinit : tag.file.length < 2
  · rw [if_pos hinit] at h
    simp only [Option.some.injEq, Prod.mk.injEq] at h
    obtain ⟨hr, htag⟩ := h
    subst htag
    exact ⟨fun hne => absurd rfl hne, fun _ => rfl,
      fun _ => ⟨rfl, le_refl _, fun i _ _ => rfl⟩⟩
  · rw [if_neg hinit] at h
    by_cases ha : c.INS = 0xA4
    · rw [if_pos ha] at h
      have hc := doSelect_cases tag c r tag' h
      refine ⟨?_, ?_, ?_⟩
      · intro hne
        rcases hc with he | hfacts
        · exact absurd (by rw [he]) hne
        · obtain ⟨hp1, hp2, hlc, hr, hfile, hfid, hsel, hdisj⟩ := hfacts
        
          exact ⟨ha, hp1, hp2, hlc, hr, hfile, hfid, hsel, hdisj⟩
      · intro hb
        exact absurd (ha.symm.trans hb) (by decide)
      · intro hd
        exact absurd (ha.symm.trans hd) (by decide)
    · rw [if_neg ha] at h
      by_cases hb : c.INS = 0xB0
      · rw [if_pos hb] at h
        have he := doRead_preserves tag c r tag' h
        subst he
        exact ⟨fun hne => absurd rfl hne, fun _ => rfl,
          fun hd => absurd (hb.symm.trans hd) (by decide)⟩
      · rw [if_neg hb] at h
        by_cases hd : c.INS = 0xD6
        · rw [if_pos hd] at h
          have hc := doUpdate_cases tag c r tag' h
          refine ⟨?_, fun hb' => absurd hb' hb, ?_⟩
          · intro hne
            rcases hc with he | he <;> exact absurd (by rw [he]) hne
          · intro _
            rcases hc with he | he
            · subst he
              exact ⟨rfl, le_refl _, fun i _ _ => rfl⟩
            · subst he
              refine ⟨rfl, ?_, ?_⟩
              · show tag.file.length ≤
                  (goWriteAt tag.file (bytesToUint16 c.P1 c.P2) c.Data).length
                rw [goWriteAt_length]
                exact le_max_left _ _
              · intro i hi hout
                exact goWriteAt_getElem_outside tag.file _ c.Data i hi hout
        · rw [if_neg hd] at h
          simp only [Option.some.injEq, Prod.mk.injEq] at h
          obtain ⟨hr, htag⟩ := h
          subst htag
          exact ⟨fun hne => absurd rfl hne, fun hb' => absurd hb' hb,
            fun hd' => absurd hd' hd⟩

/-- Witness for C10 at a concrete select-by-id command that changes the
selection. -/
theorem tag_frame_conditions_witness :
    ((0xE104 : Nat) ≠ 0 →
      (0xA4 : Nat) = 0xA4 ∧ (0 : Nat) = 0 ∧ (0x0C : Nat) = 0x0C ∧
      CAPDU.GetLc ⟨0, 0xA4, 0, 0x0C, [2], [0xE1, 0x04], []⟩ = 2 ∧
      rapduCommandCompleted = rapduCommandCompleted ∧
      ([0, 0] : List Nat) = [0, 0] ∧ (0 : Nat) = 0 ∧
      (0xE104 : Nat) = bytesToUint16 0xE1 0x04 ∧
      ((0xE104 : Nat) = 0xE103 ∨
       ((0 : Nat) = 0 ∧ (0xE104 : Nat) = defaultNDEFFileID) ∨
       ((0 : Nat) ≠ 0 ∧ (0xE104 : Nat) = 0))) ∧
    ((0xA4 : Nat) = 0xB0 → (⟨0, 0xE104, [0, 0]⟩ : Tag) = ⟨0, 0, [0, 0]⟩) ∧
    ((0xA4 : Nat) = 0xD6 →
      (0xE104 : Nat) = 0 ∧
      ([0, 0] : List Nat).length ≤ ([0, 0] : List Nat).length ∧
      (∀ i, i < ([0, 0] : List Nat).length →
        (i < bytesToUint16 0 0x0C ∨ bytesToUint16 0 0x0C + 2 ≤ i) →
        ([0, 0] : List Nat)[i]? = ([0, 0] : List Nat)[i]?)) :=
  tag_frame_conditions ⟨0, 0, [0, 0]⟩ ⟨0, 0xE104, [0, 0]⟩
    ⟨0, 0xA4, 0, 0x0C, [2], [0xE1, 0x04], []⟩ rapduCommandCompleted
    (by decide)

/-! ## Commander-level behaviour over the software tag

Characterisation lemmas composing the CAPDU codec, the `swtag` driver,
the static tag and the RAPDU codec, used for the Device-procedure
claims. -/

/-- Splitting a successful `Except` bind. -/
lemma exceptBind_ok {alpha beta : Type} {x : Except String alpha}
    {f : alpha → Except String beta} {c : beta} (h : x >>= f = .ok c) :
    ∃ a, x = .ok a ∧ f a = .ok c := by
  cases x with
  | ok a => exact ⟨a, rfl, h⟩
  | error e =>
    rw [show (Except.error e >>= f : Except String beta) = Except.error e from
      rfl] at h
    exact Except.noConfusion h

/-- `RAPDU.Unmarshal` splits off the two trailing status bytes. -/
lemma rapdu_unmarshal_append (body : List Nat) (s1 s2 : Nat) :
    RAPDU.Unmarshal (body ++ [s1, s2]) = some ⟨body, s1, s2⟩ := by
  have hlen : (body ++ [s1, s2]).length = body.length + 2 := by simp
  have h2 : ¬ (body ++ [s1, s2]).length < 2 := by omega
  have htake : (body ++ [s1, s2]).take ((body ++ [s1, s2]).length - 2) =
      body := by
    rw [hlen]
    exact List.take_left' (by omega)
  have hg1 : (body ++ [s1, s2]).getD ((body ++ [s1, s2]).length - 2) 0 = s1 := by
    rw [hlen]
    show (body ++ [s1, s2]).getD (body.length + 2 - 2) 0 = s1
    have : body.length + 2 - 2 = body.length := by omega
    rw [this, List.getD_eq_getElem?_getD,
      List.getElem?_append_right (le_refl _)]
    simp
  have hg2 : (body ++ [s1, s2]).getD ((body ++ [s1, s2]).length - 1) 0 = s2 := by
    rw [hlen]
    show (body ++ [s1, s2]).getD (body.length + 2 - 1) 0 = s2
    have : body.length + 2 - 1 = body.length + 1 := by omega
    rw [this, List.getD_eq_getElem?_getD,
      List.getElem?_append_right (by omega)]
    have h1 : body.length + 1 - body.length = 1 := by omega
    rw [h1]
    simp
  rw [RAPDU.Unmarshal, if_neg h2, htake, hg1, hg2]

/-- Decoding a marshalled READ_BINARY command (case 2S body shape). -/
lemma capdu_unmarshal_read (p1 p2 l : Nat) :
    CAPDU.Unmarshal [0x00, 0xB0, p1, p2, l] =
      some ⟨0x00, 0xB0, p1, p2, [], [], [l]⟩ := by
  rw [unmarshal_shape_2S]
  rw [if_pos (by simp [CAPDU.check, CAPDU.lcValid, CAPDU.leValid, CAPDU.GetLc])]

/-- Decoding a marshalled select-by-id command (case 3S body shape). -/
lemma capdu_unmarshal_select (hi lo : Nat) :
    CAPDU.Unmarshal [0x00, 0xA4, 0x00, 0x0C, 2, hi, lo] =
      some ⟨0x00, 0xA4, 0x00, 0x0C, [2], [hi, lo], []⟩ := by
  have h := unmarshal_shape_3S 0x00 0xA4 0x00 0x0C 2 [hi, lo]
    (by decide) (by simp)
  rw [show (0x00 : Nat) :: 0xA4 :: 0x00 :: 0x0C :: 2 :: [hi, lo] =
    [0x00, 0xA4, 0x00, 0x0C, 2, hi, lo] from rfl] at h
  rw [h]
  rw [if_pos (by simp [CAPDU.check, CAPDU.lcValid, CAPDU.leValid, CAPDU.GetLc])]

/-- Decoding a marshalled UPDATE_BINARY command (case 3S body shape). -/
lemma capdu_unmarshal_update (p1 p2 : Nat) (d : List Nat) (hd : d ≠ []) :
    CAPDU.Unmarshal (0x00 :: 0xD6 :: p1 :: p2 :: d.length :: d) =
      some ⟨0x00, 0xD6, p1, p2, [d.length], d, []⟩ := by
  have hlen : d.length ≠ 0 := fun h0 => hd (List.length_eq_zero.mp h0)
  have h := unmarshal_shape_3S 0x00 0xD6 p1 p2 d.length d hlen rfl
  rw [h]
  rw [if_pos ?hc]
  case hc =>
    simp [CAPDU.check, CAPDU.lcValid, CAPDU.leValid, CAPDU.GetLc, hlen]

/-- `bytesToUint16` inverts `u16hi`/`u16lo` up to the `uint16`
truncation performed by `helpers.Uint16ToBytes`. -/
lemma u16modEq (n : Nat) : bytesToUint16 (u16hi n) (u16lo n) = n % 65536 := by
  unfold bytesToUint16 u16hi u16lo
  omega

/-- `NewSelectAPDU` always marshals, to a 7-byte select-by-id frame. -/
lemma select_marshal (fid : Nat) :
    (NewSelectAPDU fid).Marshal =
      some [0x00, 0xA4, 0x00, 0x0C, 2, u16hi fid, u16lo fid] := by
  rw [NewSelectAPDU, CAPDU.Marshal,
    if_pos (by simp [CAPDU.check, CAPDU.lcValid, CAPDU.leValid, CAPDU.GetLc,
      setLcBytes, u16Bytes])]
  simp [setLcBytes, u16Bytes]

/-- `NewReadBinaryAPDU` marshals to a 5-byte case-2S frame for window
lengths between 1 and 255. -/
lemma read_marshal (offset length : Nat) (h1 : 1 ≤ length)
    (h255 : length ≤ 255) :
    (NewReadBinaryAPDU offset length).Marshal =
      some [0x00, 0xB0, u16hi offset, u16lo offset, length] := by
  have hle : setLeBytes 0 length = [length] := by
    rw [setLeBytes, if_neg (by omega), if_pos h255]
  rw [NewReadBinaryAPDU, CAPDU.Marshal]
  rw [if_pos (by simp [CAPDU.check, CAPDU.lcValid, CAPDU.leValid, CAPDU.GetLc,
    hle])]
  simp [hle]

/-- `NewUpdateBinaryAPDU` marshals to header, 1-byte `Lc` and data for
chunk sizes between 1 and 255. -/
lemma update_marshal (d : List Nat) (offset : Nat) (hd : d ≠ [])
    (h255 : d.length ≤ 255) :
    (NewUpdateBinaryAPDU d offset).Marshal =
      some (0x00 :: 0xD6 :: u16hi offset :: u16lo offset :: d.length :: d) := by
  have hlen : d.length ≠ 0 := fun h0 => hd (List.length_eq_zero.mp h0)
  have hlc : setLcBytes d.length = [d.length] := by
    rw [setLcBytes, if_neg hlen, if_pos h255]
  rw [NewUpdateBinaryAPDU, CAPDU.Marshal]
  rw [if_pos (by simp [CAPDU.check, CAPDU.lcValid, CAPDU.leValid, CAPDU.GetLc,
    hlc, hlen])]
  simp [hlc]

/-- The NDEF-application select CAPDU marshals to its 13-byte frame. -/
lemma appselect_marshal :
    NewNDEFTagApplicationSelectAPDU.Marshal =
      some [0x00, 0xA4, 0x04, 0x00, 0x07,
            0xD2, 0x76, 0x00, 0x00, 0x85, 0x01, 0x01, 0x00] := by decide

/-- The marshalled NDEF-application select frame decodes back (case 4S). -/
lemma appselect_unmarshal :
    CAPDU.Unmarshal [0x00, 0xA4, 0x04, 0x00, 0x07,
        0xD2, 0x76, 0x00, 0x00, 0x85, 0x01, 0x01, 0x00] =
      some ⟨0x00, 0xA4, 0x04, 0x00, [0x07],
        [0xD2, 0x76, 0x00, 0x00, 0x85, 0x01, 0x01], [0x00]⟩ := by decide

/-- One `swtag` exchange, split into its three phases. -/
lemma swtag_run (tag : Tag) (tx : List Nat) (rxLen : Nat) (c : CAPDU)
    (r : RAPDU) (tag' : Tag)
    (hc : CAPDU.Unmarshal tx = some c)
    (hcmd : Tag.Command tag c = some (r, tag'))
    (hlen : ¬ r.Marshal.length > rxLen) :
    swtagTransceive tag tx rxLen = .ok (r.Marshal, tag') := by
  show (match CAPDU.Unmarshal tx with
    | none => .error "Driver.TransceiveBytes: bad CAPDU"
    | some c =>
      match tag.Command c with
      | none => .error "runtime panic in Tag.Command"
      | some (r, tag') =>
        let rx := r.Marshal
        if rx.length > rxLen then
          .error "Driver.TransceiveBytes: The length of the response is larger than expected"
        else .ok (rx, tag')) = Except.ok (r.Marshal, tag')
  rw [hc]
  dsimp only
  rw [hcmd]
  dsimp only
  rw [if_neg hlen]

/-- Running `Commander.Select` over an exchange whose outcome is known. -/
lemma commanderSelect_run {σ : Type} (tr : Transceive σ) (s : σ) (fid : Nat)
    (resp : List Nat) (s' : σ) (r : RAPDU)
    (htr : tr s [0x00, 0xA4, 0x00, 0x0C, 2, u16hi fid, u16lo fid] 2 =
      .ok (resp, s'))
    (hr : RAPDU.Unmarshal resp = some r) :
    commanderSelect tr s fid =
      (if r.CommandCompleted then .ok s'
       else if r.FileNotFound then .error "Commander.Select: File not found"
       else .error "Select: Unknown error") := by
  simp only [commanderSelect, select_marshal]
  have hle : (NewSelectAPDU fid).GetLe = 0 := rfl
  rw [hle, htr, exceptOkBind]
  dsimp only
  rw [hr]

/-- Running `Commander.ReadBinary` over an exchange whose outcome is
known. -/
lemma commanderReadBinary_run {σ : Type} (tr : Transceive σ) (s : σ)
    (offset length : Nat) (resp : List Nat) (s' : σ) (r : RAPDU)
    (h1 : 1 ≤ length) (h255 : length ≤ 255)
    (htr : tr s [0x00, 0xB0, u16hi offset, u16lo offset, length]
      (length + 2) = .ok (resp, s'))
    (hr : RAPDU.Unmarshal resp = some r) :
    commanderReadBinary tr s offset length =
      (if r.CommandCompleted then .ok (r.ResponseBody, s')
       else .error "Commander.ReadBinary: Error") := by
  simp only [commanderReadBinary, read_marshal offset length h1 h255]
  rw [htr, exceptOkBind]
  dsimp only
  rw [hr]

/-- Running `Commander.UpdateBinary` over an exchange whose outcome is
known. -/
lemma commanderUpdateBinary_run {σ : Type} (tr : Transceive σ) (s : σ)
    (d : List Nat) (offset : Nat) (resp : List Nat) (s' : σ) (r : RAPDU)
    (hd : d ≠ []) (h255 : d.length ≤ 255)
    (htr : tr s (0x00 :: 0xD6 :: u16hi offset :: u16lo offset ::
      d.length :: d) 2 = .ok (resp, s'))
    (hr : RAPDU.Unmarshal resp = some r) :
    commanderUpdateBinary tr s d offset =
      (if r.CommandCompleted then .ok s'
       else .error "Commander.UpdateBinary: Error") := by
  simp only [commanderUpdateBinary, update_marshal d offset hd h255]
  rw [htr, exceptOkBind]
  dsimp only
  rw [hr]

/-- Running `Commander.NDEFApplicationSelect` over an exchange whose
outcome is known. -/
lemma commanderNDEFApplicationSelect_run {σ : Type} (tr : Transceive σ)
    (s : σ) (resp : List Nat) (s' : σ) (r : RAPDU)
    (htr : tr s [0x00, 0xA4, 0x04, 0x00, 0x07,
      0xD2, 0x76, 0x00, 0x00, 0x85, 0x01, 0x01, 0x00] 258 = .ok (resp, s'))
    (hr : RAPDU.Unmarshal resp = some r) :
    commanderNDEFApplicationSelect tr s =
      (if r.CommandCompleted then .ok s'
       else if r.FileNotFound then
         .error "Commander.NDEFApplicationSelect: NDEF Tag Application not found"
       else .error "Commander.NDEFApplicationSelect: unknown error") := by
  simp only [commanderNDEFApplicationSelect, appselect_marshal]
  have hle : NewNDEFTagApplicationSelectAPDU.GetLe + 2 = 258 := rfl
  rw [hle, htr, exceptOkBind]
  dsimp only
  rw [hr]

/-- An uninitialised tag answers `InactiveState` to every command. -/
lemma command_inactive (tag : Tag) (c : CAPDU) (h2 : tag.file.length < 2) :
    Tag.Command tag c = some (rapduInactiveState, tag) := by
  simp only [Tag.Command, if_pos h2]

/-- An initialised tag completes the NDEF-application select and keeps
its state. -/
lemma appselect_command (tag : Tag) (h2 : ¬ tag.file.length < 2) :
    Tag.Command tag ⟨0x00, 0xA4, 0x04, 0x00, [0x07],
      [0xD2, 0x76, 0x00, 0x00, 0x85, 0x01, 0x01], [0x00]⟩ =
      some (rapduCommandCompleted, tag) := by
  simp only [Tag.Command, if_neg h2]
  rw [if_pos trivial]
  simp only [Tag.doSelect]
  rw [if_pos (by decide), if_pos (by decide)]

/-- `Commander.NDEFApplicationSelect` over the software tag: fails on an
uninitialised tag and otherwise succeeds without touching it. -/
lemma appselect_char (tag : Tag) :
    commanderNDEFApplicationSelect swtagTransceive tag =
      if tag.file.length < 2 then
        .error "Commander.NDEFApplicationSelect: unknown error"
      else .ok tag := by
  by_cases h2 : tag.file.length < 2
  · rw [if_pos h2]
    rw [commanderNDEFApplicationSelect_run swtagTransceive tag
      (RAPDU.Marshal rapduInactiveState) tag rapduInactiveState
      (swtag_run tag _ 258 _ rapduInactiveState tag appselect_unmarshal
        (command_inactive tag _ h2) (by decide))
      (by decide)]
    rw [if_neg (by decide), if_neg (by decide)]
  · rw [if_neg h2]
    rw [commanderNDEFApplicationSelect_run swtagTransceive tag
      (RAPDU.Marshal rapduCommandCompleted) tag rapduCommandCompleted
      (swtag_run tag _ 258 _ rapduCommandCompleted tag appselect_unmarshal
        (appselect_command tag h2) (by decide))
      (by decide)]
    rw [if_pos (by decide)]

/-- An initialised tag's answer to a select-by-id command. -/
lemma select_command (tag : Tag) (hi lo : Nat) (h2 : ¬ tag.file.length < 2) :
    Tag.Command tag ⟨0x00, 0xA4, 0x00, 0x0C, [2], [hi, lo], []⟩ =
      (if bytesToUint16 hi lo = 0xE103 ∨
          (tag.FileID = 0 ∧ bytesToUint16 hi lo = defaultNDEFFileID) ∨
          (tag.FileID ≠ 0 ∧ tag.FileID = bytesToUint16 hi lo) then
        some (rapduCommandCompleted,
          { tag with selectedFileID := bytesToUint16 hi lo })
       else some (rapduFileNotFound, tag)) := by
  simp only [Tag.Command, if_neg h2]
  rw [if_pos trivial]
  simp only [Tag.doSelect]
  rw [if_neg (fun h => absurd h.1 (by decide)),
    if_pos (show _ ∧ _ from ⟨by trivial, by trivial⟩),
    if_neg (fun h => h rfl)]

/-- `Commander.Select` over the software tag: hit, miss and
uninitialised cases; the transmitted file id is truncated to 16 bits by
the frame encoding. -/
lemma select_char (tag : Tag) (fid : Nat) :
    commanderSelect swtagTransceive tag fid =
      (if tag.file.length < 2 then .error "Select: Unknown error"
       else if fid % 65536 = 0xE103 ∨
          (tag.FileID = 0 ∧ fid % 65536 = defaultNDEFFileID) ∨
          (tag.FileID ≠ 0 ∧ tag.FileID = fid % 65536) then
         .ok { tag with selectedFileID := fid % 65536 }
       else .error "Commander.Select: File not found") := by
  by_cases h2 : tag.file.length < 2
  · rw [if_pos h2]
    rw [commanderSelect_run swtagTransceive tag fid
      (RAPDU.Marshal rapduInactiveState) tag rapduInactiveState
      (swtag_run tag _ 2 _ rapduInactiveState tag
        (capdu_unmarshal_select (u16hi fid) (u16lo fid))
        (command_inactive tag _ h2) (by decide))
      (by decide)]
    rw [if_neg (by decide), if_neg (by decide)]
  · rw [if_neg h2]
    have hcmd := select_command tag (u16hi fid) (u16lo fid) h2
    rw [u16modEq] at hcmd
    by_cases hhit : fid % 65536 = 0xE103 ∨
        (tag.FileID = 0 ∧ fid % 65536 = defaultNDEFFileID) ∨
        (tag.FileID ≠ 0 ∧ tag.FileID = fid % 65536)
    · rw [if_pos hhit]
      rw [if_pos hhit] at hcmd
      rw [commanderSelect_run swtagTransceive tag fid
        (RAPDU.Marshal rapduCommandCompleted)
        { tag with selectedFileID := fid % 65536 } rapduCommandCompleted
        (swtag_run tag _ 2 _ rapduCommandCompleted _
          (capdu_unmarshal_select (u16hi fid) (u16lo fid))
          hcmd (by decide))
        (by decide)]
      rw [if_pos (by decide)]
    · rw [if_neg hhit]
      rw [if_neg hhit] at hcmd
      rw [commanderSelect_run swtagTransceive tag fid
        (RAPDU.Marshal rapduFileNotFound) tag rapduFileNotFound
        (swtag_run tag _ 2 _ rapduFileNotFound tag
          (capdu_unmarshal_select (u16hi fid) (u16lo fid))
          hcmd (by decide))
        (by decide)]
      rw [if_neg (by decide), if_pos (by decide)]

/-- An initialised default-id tag with the NDEF file selected answers a
READ_BINARY whose window lies inside the file with exactly that
window. -/
lemma read_command_ndef (f : List Nat) (hi lo len : Nat)
    (h2 : ¬ f.length < 2) (hlen0 : len ≠ 0)
    (hbound : bytesToUint16 hi lo + len ≤ f.length) :
    Tag.Command ⟨0, 0xE104, f⟩ ⟨0x00, 0xB0, hi, lo, [], [], [len]⟩ =
      some (⟨(f.drop (bytesToUint16 hi lo)).take len, 0x90, 0x00⟩,
        ⟨0, 0xE104, f⟩) := by
  simp only [Tag.Command]
  dsimp only
  rw [if_neg h2, if_neg (by decide), if_pos trivial]
  simp only [Tag.doRead, defaultNDEFFileID]
  norm_num
  dsimp only [CAPDU.GetLe]
  rw [if_neg hlen0]
  split_ifs with hclip
  · exfalso
    push_cast at hclip
    omega
  · simp only [goSlice]
    split_ifs with hok
    · dsimp only
      have e1 : (((bytesToUint16 hi lo : Nat) : Int) +
          ((len : Nat) : Int)).toNat = bytesToUint16 hi lo + len := by omega
      have e2 : ((bytesToUint16 hi lo : Nat) : Int).toNat =
          bytesToUint16 hi lo := by omega
      rw [e1, e2, List.drop_take, Nat.add_sub_cancel_left]
    · exfalso
      push_cast at hok
      omega

/-- An initialised default-id tag with the NDEF file selected applies an
UPDATE_BINARY by overwriting (and zero-extending) at the requested
offset. -/
lemma update_command_ndef (f : List Nat) (hi lo : Nat) (d : List Nat)
    (h2 : ¬ f.length < 2) :
    Tag.Command ⟨0, 0xE104, f⟩ ⟨0x00, 0xD6, hi, lo, [d.length], d, []⟩ =
      some (rapduCommandCompleted,
        ⟨0, 0xE104, goWriteAt f (bytesToUint16 hi lo) d⟩) := by
  simp only [Tag.Command]
  rw [if_neg h2, if_neg (by decide), if_neg (by decide), if_pos trivial]
  simp only [Tag.doUpdate, defaultNDEFFileID]
  norm_num

/-- An initialised tag with the capability container selected serves up
to 15 bytes of the marshalled default CC on a `READ_BINARY(0, 15)`. -/
lemma read_command_cc (tag : Tag) (h2 : ¬ tag.file.length < 2)
    (hsel : tag.selectedFileID = 0xE103) :
    Tag.Command tag ⟨0x00, 0xB0, 0, 0, [], [], [15]⟩ =
      some (⟨(ccServedBytes tag.FileID).take 15, 0x90, 0x00⟩, tag) := by
  simp only [Tag.Command]
  rw [if_neg h2, if_neg (by decide), if_pos trivial]
  simp only [Tag.doRead, hsel]
  norm_num
  rw [show ((tagCC (if tag.FileID = 0 then defaultNDEFFileID
      else tag.FileID)).Marshal).getD [] = ccServedBytes tag.FileID from rfl]
  have hge : ((⟨0, 176, 0, 0, [], [], [15]⟩ : CAPDU)).GetLe = 15 := rfl
  rw [hge, show bytesToUint16 0 0 = 0 from rfl]
  generalize ccServedBytes tag.FileID = r
  split_ifs with hclip
  · simp only [goSlice]
    split_ifs with hok
    · have hr15 : r.length ≤ 15 := by push_cast at hclip; omega
      simp [List.take_of_length_le hr15]
    · exact (hok (by push_cast; omega)).elim
  · simp only [goSlice]
    split_ifs with hok
    · simp
    · exact (hok (by push_cast; omega)).elim

/-- `RAPDU.Unmarshal` inverts `RAPDU.Marshal`. -/
lemma rapdu_roundtrip (r : RAPDU) : RAPDU.Unmarshal r.Marshal = some r :=
  rapdu_unmarshal_append r.ResponseBody r.SW1 r.SW2

/-- `Commander.ReadBinary` over an initialised default-id software tag
with the NDEF file selected returns the in-file window. -/
lemma readBinary_ndef_char (f : List Nat) (offset len : Nat)
    (h2 : 2 ≤ f.length) (h1 : 1 ≤ len) (h255 : len ≤ 255)
    (hoff : offset < 65536) (hbound : offset + len ≤ f.length) :
    commanderReadBinary swtagTransceive ⟨0, 0xE104, f⟩ offset len =
      .ok ((f.drop offset).take len, ⟨0, 0xE104, f⟩) := by
  have hnl : ¬ f.length < 2 := by omega
  have hcmd := read_command_ndef f (u16hi offset) (u16lo offset) len hnl
    (by omega) (by rw [u16modEq, Nat.mod_eq_of_lt hoff]; exact hbound)
  rw [u16modEq, Nat.mod_eq_of_lt hoff] at hcmd
  have hlenr : ¬ ((⟨(f.drop offset).take len, 0x90, 0x00⟩ :
      RAPDU).Marshal).length > len + 2 := by
    simp only [RAPDU.Marshal, List.length_append, List.length_take,
      List.length_cons, List.length_nil]
    omega
  rw [commanderReadBinary_run swtagTransceive ⟨0, 0xE104, f⟩ offset len
    _ ⟨0, 0xE104, f⟩ ⟨(f.drop offset).take len, 0x90, 0x00⟩ h1 h255
    (swtag_run _ _ _ _ _ _
      (capdu_unmarshal_read (u16hi offset) (u16lo offset) len) hcmd hlenr)
    (rapdu_roundtrip _)]
  simp [RAPDU.CommandCompleted]

/-- `Commander.UpdateBinary` over an initialised default-id software tag
with the NDEF file selected performs the write. -/
lemma updateBinary_ndef_char (f d : List Nat) (offset : Nat)
    (h2 : 2 ≤ f.length) (hd : d ≠ []) (h255 : d.length ≤ 255)
    (hoff : offset < 65536) :
    commanderUpdateBinary swtagTransceive ⟨0, 0xE104, f⟩ d offset =
      .ok ⟨0, 0xE104, goWriteAt f offset d⟩ := by
  have hnl : ¬ f.length < 2 := by omega
  have hcmd := update_command_ndef f (u16hi offset) (u16lo offset) d hnl
  rw [u16modEq, Nat.mod_eq_of_lt hoff] at hcmd
  rw [commanderUpdateBinary_run swtagTransceive ⟨0, 0xE104, f⟩ d offset
    _ ⟨0, 0xE104, goWriteAt f offset d⟩ rapduCommandCompleted hd h255
    (swtag_run _ _ _ _ _ _
      (capdu_unmarshal_update (u16hi offset) (u16lo offset) d hd)
      hcmd (by decide))
    (rapdu_roundtrip _)]
  rw [if_pos (by decide)]

/-- `Commander.ReadBinary (0, 15)` over an initialised software tag with
the capability container selected returns the served CC bytes. -/
lemma readBinary_cc_char (tag : Tag) (h2 : 2 ≤ tag.file.length)
    (hsel : tag.selectedFileID = 0xE103) :
    commanderReadBinary swtagTransceive tag 0 15 =
      .ok ((ccServedBytes tag.FileID).take 15, tag) := by
  have hnl : ¬ tag.file.length < 2 := by omega
  have hcmd := read_command_cc tag hnl hsel
  have hlenr : ¬ ((⟨(ccServedBytes tag.FileID).take 15, 0x90, 0x00⟩ :
      RAPDU).Marshal).length > 15 + 2 := by
    simp only [RAPDU.Marshal, List.length_append, List.length_take,
      List.length_cons, List.length_nil]
    omega
  rw [commanderReadBinary_run swtagTransceive tag 0 15
    _ tag ⟨(ccServedBytes tag.FileID).take 15, 0x90, 0x00⟩
    (by omega) (by omega)
    (swtag_run _ _ _ _ _ _
      (capdu_unmarshal_read (u16hi 0) (u16lo 0) 15) hcmd hlenr)
    (rapdu_roundtrip _)]
  simp [RAPDU.CommandCompleted]

/-- The capability container built by `Tag.doRead` marshals exactly when
the (resolved) file id passes the control-TLV validation, and then to
the canonical 15-byte frame. -/
lemma tagCC_marshal (g : Nat) :
    (tagCC g).Marshal =
      (if ControlTLV.check ⟨0x04, 0x06, g, 0xFFFE, 0x00, 0x00⟩ then
        some [0x00, 0x0F, 0x20, 0x00, 0xFF, 0x00, 0xFF,
              0x04, 0x06, u16hi g, u16lo g, 0xFF, 0xFE, 0x00, 0x00]
      else none) := by
  by_cases hg : ControlTLV.check ⟨0x04, 0x06, g, 0xFFFE, 0x00, 0x00⟩ = true
  · rw [if_pos hg]
    have hfcm : ControlTLV.Marshal ⟨0x04, 0x06, g, 0xFFFE, 0x00, 0x00⟩ =
        some [0x04, 0x06, u16hi g, u16lo g, 0xFF, 0xFE, 0x00, 0x00] := by
      rw [ControlTLV.Marshal, if_pos hg, TLV.Marshal,
        if_pos (by simp [TLV.check, u16Bytes])]
      simp [u16Bytes]
      exact ⟨rfl, rfl⟩
    have hchk : (tagCC g).check = true := by
      simp [CapabilityContainer.check, tagCC, hg]
    rw [CapabilityContainer.Marshal, if_pos hchk]
    show (do
      let fcBytes ← ControlTLV.Marshal ⟨0x04, 0x06, g, 0xFFFE, 0x00, 0x00⟩
      let blockBytes ← ccBlocksMarshal []
      some (u16Bytes 15 ++ [0x20] ++ u16Bytes 0x00FF ++ u16Bytes 0x00FF ++
        fcBytes ++ blockBytes)) = _
    rw [hfcm]
    simp [ccBlocksMarshal, u16Bytes, u16hi, u16lo]
  · rw [if_neg hg]
    have hchk : (tagCC g).check = false := by
      have hg' : ControlTLV.check ⟨0x04, 0x06, g, 0xFFFE, 0x00, 0x00⟩ =
          false := by simpa using hg
      simp [CapabilityContainer.check, tagCC, hg']
    rw [CapabilityContainer.Marshal, hchk]
    simp

/-- Parsing the canonical 15-byte CC frame served by the software tag:
it succeeds exactly on the RFU checks of the embedded file id bytes and
yields `MLe = MLc = 255` and max file size `0xFFFE`. -/
lemma ccUnmarshal_served (b0 b1 : Nat)
    (hchk : ControlTLV.check ⟨0x04, 0x06, bytesToUint16 b0 b1,
      0xFFFE, 0x00, 0x00⟩ = true) :
    CapabilityContainer.Unmarshal
        [0x00, 0x0F, 0x20, 0x00, 0xFF, 0x00, 0xFF,
         0x04, 0x06, b0, b1, 0xFF, 0xFE, 0x00, 0x00] =
      .ok (⟨15, 0x20, 0x00FF, 0x00FF,
            ⟨0x04, 0x06, bytesToUint16 b0 b1, 0xFFFE, 0x00, 0x00⟩, []⟩,
           15) := by
  set buf : List Nat :=
    [0x00, 0x0F, 0x20, 0x00, 0xFF, 0x00, 0xFF,
     0x04, 0x06, b0, b1, 0xFF, 0xFE, 0x00, 0x00] with hbuf
  have hge : ¬ buf.length < 15 := by simp [hbuf]
  have hcclen : bytesToUint16 (buf[0]?.getD 0) (buf[1]?.getD 0) = 15 := rfl
  have hmv : buf[2]?.getD 0 = 0x20 := rfl
  have hmle : bytesToUint16 (buf[3]?.getD 0) (buf[4]?.getD 0) = 0x00FF := rfl
  have hmlc : bytesToUint16 (buf[5]?.getD 0) (buf[6]?.getD 0) = 0x00FF := rfl
  have h8 : TLV.Unmarshal [0x04, 0x06, b0, b1, 0xFF, 0xFE, 0x00, 0x00] =
      .ok (⟨0x04, 0x06, [b0, b1, 0xFF, 0xFE, 0x00, 0x00]⟩, 8) := by
    simp [TLV.Unmarshal]
  have hfcparse : NDEFFileControlTLV.Unmarshal ((buf.drop 7).take 8) =
      .ok (⟨0x04, 0x06, bytesToUint16 b0 b1, 0xFFFE, 0x00, 0x00⟩, 8) := by
    show NDEFFileControlTLV.Unmarshal
      [0x04, 0x06, b0, b1, 0xFF, 0xFE, 0x00, 0x00] = _
    have hbe : bytesToUint16 0xFF 0xFE = 0xFFFE := rfl
    simp [NDEFFileControlTLV.Unmarshal, ControlTLV.Unmarshal, h8,
      exceptOkBind, hbe, hchk, ControlTLV.IsNDEFFileControlTLV]
  have hloop : ccLoop buf 15 15 16 [] = .ok ([], 15) :=
    ccLoop_stop buf 15 15 16 [] (by omega)
  have hcheck : (⟨15, 0x20, 0x00FF, 0x00FF,
      ⟨0x04, 0x06, bytesToUint16 b0 b1, 0xFFFE, 0x00, 0x00⟩, []⟩ :
        CapabilityContainer).check = true := by
    simp [CapabilityContainer.check, hchk]
  simp [CapabilityContainer.Unmarshal, hge, hcclen, hmv, hmle, hmlc,
    hfcparse, hloop, hcheck, exceptOkBind]

/-- `Device.ndefDetectProcedure` on an initialised default-id software
tag: detection succeeds, reports the tag's NLEN and the default CC
parameters, and leaves the NDEF file selected. -/
lemma detect_default (sel f0 f1 : Nat) (frest : List Nat)
    (hnl : bytesToUint16 f0 f1 ≤ 0xFFFC) :
    ndefDetectProcedure swtagTransceive ⟨0, sel, f0 :: f1 :: frest⟩ =
      .ok (⟨bytesToUint16 f0 f1, 0x00FF, 0x00FF, 0xFFFE, false⟩,
           ⟨0, 0xE104, f0 :: f1 :: frest⟩) := by
  rw [ndefDetectProcedure]
  rw [appselect_char, if_neg (by simp), exceptOkBind]
  rw [select_char, if_neg (by simp), if_pos (Or.inl (by norm_num)),
    exceptOkBind]
  rw [readBinary_cc_char _ (by simp) (by norm_num), exceptOkBind]
  dsimp only
  rw [show List.take 15 (ccServedBytes 0) =
    [0x00, 0x0F, 0x20, 0x00, 0xFF, 0x00, 0xFF, 0x04, 0x06, 0xE1, 0x04,
     0xFF, 0xFE, 0x00, 0x00] from rfl]
  rw [ccUnmarshal_served 0xE1 0x04 (by decide), exceptOkBind]
  dsimp only
  rw [if_neg (by decide)]
  rw [select_char, if_neg (by simp),
    if_pos (Or.inr (Or.inl ⟨rfl, by decide⟩)), exceptOkBind]
  norm_num [bytesToUint16]
  rw [readBinary_ndef_char (f0 :: f1 :: frest) 0 2
    (by simp only [List.length_cons]; omega) (by omega) (by omega)
    (by omega) (by simp only [List.length_cons]; omega), exceptOkBind]
  dsimp only
  rw [show ((f0 :: f1 :: frest).drop 0).take 2 = [f0, f1] from rfl]
  dsimp only
  rw [if_neg (by simp only [bytesToUint16] at hnl; omega)]
  rfl

/-- The chunked read loop of `Device.Read` over an initialised
default-id software tag returns the `nlen`-byte window at offset 2,
whatever chunking `readLen` imposes. -/
lemma deviceReadLoop_ok (n : Nat) (f : List Nat) (hf : 2 + n ≤ f.length)
    (hn : n ≤ 0xFFFC) :
    ∀ fuel tW rl acc, tW ≤ n → 1 ≤ rl → rl ≤ 255 → n - tW ≤ fuel →
    deviceReadLoop swtagTransceive n ⟨0, 0xE104, f⟩ tW rl acc fuel =
      .ok (acc ++ (f.drop (2 + tW)).take (n - tW), ⟨0, 0xE104, f⟩) := by
  intro fuel
  induction fuel with
  | zero =>
    intro tW rl acc htw hrl1 hrl255 hfuel
    have htn : ¬ tW < n := by omega
    simp only [deviceReadLoop, if_neg htn]
    rw [show n - tW = 0 from by omega]
    simp
  | succ k ih =>
    intro tW rl acc htw hrl1 hrl255 hfuel
    by_cases htn : tW < n
    · simp only [deviceReadLoop, if_pos htn]
      set rl2 := if n - tW < rl then n - tW else rl with hrl2def
      have hrl2facts : 1 ≤ rl2 ∧ rl2 ≤ rl ∧ rl2 ≤ n - tW := by
        rw [hrl2def]
        split <;> omega
      rw [readBinary_ndef_char f (2 + tW) rl2 (by omega) hrl2facts.1
        (by omega) (by omega) (by omega), exceptOkBind]
      dsimp only
      rw [ih (tW + rl2) rl2 (acc ++ (f.drop (2 + tW)).take rl2)
        (by omega) hrl2facts.1 (by omega) (by omega)]
      rw [List.append_assoc]
      have hdd : List.drop (2 + (tW + rl2)) f =
          List.drop rl2 (List.drop (2 + tW) f) := by
        rw [List.drop_drop]
        congr 1
        omega
      have hlists : (f.drop (2 + tW)).take rl2 ++
          (f.drop (2 + (tW + rl2))).take (n - (tW + rl2)) =
          (f.drop (2 + tW)).take (n - tW) := by
        rw [hdd, ← List.take_add]
        congr 1
        omega
      rw [hlists]
    · simp only [deviceReadLoop, if_neg htn]
      rw [show n - tW = 0 from by omega]
      simp

/-- `Device.Read` on an initialised default-id software tag returns the
NLEN-byte message window starting at offset 2. -/
lemma deviceRead_default (sel f0 f1 : Nat) (frest : List Nat)
    (hnl : bytesToUint16 f0 f1 ≤ 0xFFFC) (hpos : 1 ≤ bytesToUint16 f0 f1)
    (hflen : 2 + bytesToUint16 f0 f1 ≤ (f0 :: f1 :: frest).length) :
    deviceRead swtagTransceive ⟨0, sel, f0 :: f1 :: frest⟩ =
      .ok (((f0 :: f1 :: frest).drop 2).take (bytesToUint16 f0 f1),
           ⟨0, 0xE104, f0 :: f1 :: frest⟩) := by
  rw [deviceRead]
  rw [detect_default sel f0 f1 frest hnl, exceptOkBind]
  dsimp only
  rw [if_neg (by omega)]
  set rl := if bytesToUint16 f0 f1 < 255 then bytesToUint16 f0 f1 else 255
    with hrldef
  have hrlfacts : 1 ≤ rl ∧ rl ≤ 255 := by
    rw [hrldef]
    split <;> omega
  rw [deviceReadLoop_ok (bytesToUint16 f0 f1) (f0 :: f1 :: frest) hflen hnl
    (bytesToUint16 f0 f1 + 1) 0 rl [] (by omega) hrlfacts.1 hrlfacts.2
    (by omega)]
  simp

/-- Canonical form of `goWriteAt`: zero-padded front, data, original
tail. -/
lemma goWriteAt_eq (f : List Nat) (a : Nat) (d : List Nat) :
    goWriteAt f a d =
      (f.take a ++ List.replicate (a - f.length) 0) ++ d ++
        f.drop (a + d.length) := by
  unfold goWriteAt
  by_cases h : a + d.length > f.length
  · rw [if_pos h]
    dsimp only
    have hdrop : (f ++ List.replicate (a + d.length - f.length) 0).drop
        (a + d.length) = [] := by
      apply List.drop_eq_nil_of_le
      simp
      omega
    have hdropf : f.drop (a + d.length) = [] :=
      List.drop_eq_nil_of_le (by omega)
    rw [hdrop, hdropf, List.take_append_eq_append_take, List.take_replicate]
    have hmin : min (a - f.length) (a + d.length - f.length) =
        a - f.length := by omega
    rw [hmin]
  · rw [if_neg h]
    have hz : a - f.length = 0 := by omega
    rw [hz]
    simp

/-- Two consecutive `goWriteAt`s at adjacent offsets merge into one. -/
lemma goWriteAt_merge (f d1 d2 : List Nat) (a : Nat) :
    goWriteAt (goWriteAt f a d1) (a + d1.length) d2 =
      goWriteAt f a (d1 ++ d2) := by
  rw [goWriteAt_eq f a d1]
  set F := f.take a ++ List.replicate (a - f.length) 0 with hF
  have hFlen : F.length = a := by
    rw [hF]
    simp
    omega
  rw [goWriteAt_eq (F ++ d1 ++ f.drop (a + d1.length)) (a + d1.length) d2,
    goWriteAt_eq f a (d1 ++ d2)]
  have h1 : (F ++ d1 ++ f.drop (a + d1.length)).take (a + d1.length) =
      F ++ d1 :=
    List.take_left' (by simp [hFlen])
  have hlen1 : (F ++ d1 ++ f.drop (a + d1.length)).length =
      a + d1.length + (f.drop (a + d1.length)).length := by
    simp [hFlen]
    omega
  have h2 : List.replicate
      (a + d1.length - (F ++ d1 ++ f.drop (a + d1.length)).length)
      (0 : Nat) = [] := by
    have hz : a + d1.length - (F ++ d1 ++ f.drop (a + d1.length)).length =
        0 := by
      rw [hlen1]
      omega
    rw [hz]
    rfl
  have h3 : (F ++ d1 ++ f.drop (a + d1.length)).drop
      (a + d1.length + d2.length) = f.drop (a + (d1 ++ d2).length) := by
    rw [← List.drop_drop, List.drop_left' (by simp [hFlen]),
      List.drop_drop]
    congr 1
    simp
    omega
  rw [h1, h2, h3]
  simp [hF, List.append_assoc]

/-- The update loop exits immediately once the message is fully
written. -/
lemma deviceUpdateLoop_stop {σ : Type} (tr : Transceive σ) (msg : List Nat)
    (s : σ) (tW wl fuel : Nat) (h : ¬ tW < msg.length) :
    deviceUpdateLoop tr msg s tW wl fuel = .ok (s, []) := by
  cases fuel <;> simp [deviceUpdateLoop, h]

/-- The chunked write loop of `Device.Update` over an initialised
default-id software tag writes the remaining message at offset
`totalWrite + 2` in one merged `goWriteAt`. -/
lemma deviceUpdateLoop_ok (msg : List Nat) (hm : msg.length ≤ 0xFFFC) :
    ∀ fuel f tW wl, 2 ≤ f.length → tW < msg.length → 1 ≤ wl → wl ≤ 255 →
      msg.length - tW ≤ fuel →
    ∃ tr, deviceUpdateLoop swtagTransceive msg ⟨0, 0xE104, f⟩ tW wl fuel =
      .ok (⟨0, 0xE104, goWriteAt f (tW + 2) (msg.drop tW)⟩, tr) := by
  intro fuel
  induction fuel with
  | zero =>
    intro f tW wl _ htw _ _ hfuel
    omega
  | succ k ih =>
    intro f tW wl hf htw hwl1 hwl255 hfuel
    simp only [deviceUpdateLoop, if_pos htw]
    set wl2 := if msg.length - tW < wl then msg.length - tW else wl
      with hwl2def
    have hwl2 : 1 ≤ wl2 ∧ wl2 ≤ wl ∧ wl2 ≤ msg.length - tW := by
      rw [hwl2def]
      split <;> omega
    have hchunklen : ((msg.drop tW).take wl2).length = wl2 := by
      simp
      omega
    have hchunkne : (msg.drop tW).take wl2 ≠ [] := by
      intro hnil
      rw [hnil] at hchunklen
      simp at hchunklen
      omega
    rw [updateBinary_ndef_char f ((msg.drop tW).take wl2) (tW + 2) hf
      hchunkne (by omega) (by omega), exceptOkBind]
    by_cases hnext : tW + wl2 < msg.length
    · obtain ⟨tr', htr'⟩ := ih (goWriteAt f (tW + 2) ((msg.drop tW).take wl2))
        (tW + wl2) wl2 (by rw [goWriteAt_length]; omega) hnext hwl2.1
        (by omega) (by omega)
      rw [htr', exceptOkBind]
      have hmerge : goWriteAt (goWriteAt f (tW + 2) ((msg.drop tW).take wl2))
          (tW + wl2 + 2) (msg.drop (tW + wl2)) =
          goWriteAt f (tW + 2) (msg.drop tW) := by
        rw [show tW + wl2 + 2 = (tW + 2) + ((msg.drop tW).take wl2).length
          from by rw [hchunklen]; omega]
        rw [goWriteAt_merge]
        congr 1
        rw [show msg.drop (tW + wl2) = (msg.drop tW).drop wl2
          from by rw [List.drop_drop]]
        exact List.take_append_drop wl2 (msg.drop tW)
      rw [hmerge]
      exact ⟨((msg.drop tW).take wl2, tW + 2) :: tr', rfl⟩
    · rw [deviceUpdateLoop_stop swtagTransceive msg _ (tW + wl2) wl2 k hnext,
        exceptOkBind]
      have hall : (msg.drop tW).take wl2 = msg.drop tW := by
        apply List.take_of_length_le
        simp
        omega
      rw [hall]
      exact ⟨[(msg.drop tW, tW + 2)], rfl⟩

/-- `Device.Update` on an initialised default-id software tag: it
succeeds and leaves a file whose NLEN field is the message length and
whose payload window is the message. -/
lemma deviceUpdate_default (sel f0 f1 : Nat) (frest msg : List Nat)
    (hnl0 : bytesToUint16 f0 f1 ≤ 0xFFFC)
    (hm1 : 1 ≤ msg.length) (hm : msg.length ≤ 0xFFFC) :
    ∃ tr g, deviceUpdate swtagTransceive ⟨0, sel, f0 :: f1 :: frest⟩ msg =
        .ok (⟨0, 0xE104, g⟩, tr) ∧
      g.take 2 = [u16hi msg.length, u16lo msg.length] ∧
      (g.drop 2).take msg.length = msg ∧
      2 + msg.length ≤ g.length := by
  rw [deviceUpdate]
  rw [detect_default sel f0 f1 frest hnl0, exceptOkBind]
  dsimp only
  rw [if_neg (by decide), if_neg (by omega)]
  rw [updateBinary_ndef_char (f0 :: f1 :: frest) [0, 0] 0
    (by simp only [List.length_cons]; omega) (by simp) (by simp) (by omega),
    exceptOkBind]
  set file1 := goWriteAt (f0 :: f1 :: frest) 0 [0, 0] with hfile1
  have hfile1len : 2 ≤ file1.length := by
    rw [hfile1, goWriteAt_length]
    simp
  set wl := if msg.length < 255 then msg.length else 255 with hwldef
  have hwl : 1 ≤ wl ∧ wl ≤ 255 := by
    rw [hwldef]
    split <;> omega
  obtain ⟨tr1, htr1⟩ := deviceUpdateLoop_ok msg hm (msg.length + 1) file1 0 wl
    hfile1len (by omega) hwl.1 hwl.2 (by omega)
  rw [htr1, exceptOkBind]
  dsimp only
  set file2 := goWriteAt file1 (0 + 2) (msg.drop 0) with hfile2
  have hfile2len : 2 + msg.length ≤ file2.length := by
    rw [hfile2, goWriteAt_length]
    simp
  rw [updateBinary_ndef_char file2 (u16Bytes msg.length) 0 (by omega)
    (by simp [u16Bytes]) (by simp [u16Bytes]) (by omega), exceptOkBind]
  refine ⟨([0, 0], 0) :: tr1 ++ [(u16Bytes msg.length, 0)],
    goWriteAt file2 0 (u16Bytes msg.length), rfl, ?_, ?_, ?_⟩
  case _ =>
    rw [goWriteAt_eq]
    have hr0 : (0 : Nat) - file2.length = 0 := by omega
    rw [hr0]
    simp [u16Bytes]
  case _ =>
    have hg2 : List.drop 2 (goWriteAt file2 0 (u16Bytes msg.length)) =
        file2.drop 2 := by
      rw [goWriteAt_eq]
      have hr0 : (0 : Nat) - file2.length = 0 := by omega
      rw [hr0]
      simp [u16Bytes]
    have hA : (file1.take (0 + 2) ++
        List.replicate ((0 + 2) - file1.length) 0).length = 2 := by
      simp
      omega
    have hf2d : file2.drop 2 = List.drop 0 msg ++
        file1.drop ((0 + 2) + (List.drop 0 msg).length) := by
      rw [hfile2, goWriteAt_eq, List.append_assoc]
      exact List.drop_left' hA
    rw [hg2, hf2d]
    simp only [List.drop_zero]
    exact List.take_left' rfl
  case _ =>
    rw [goWriteAt_length]
    simp [u16Bytes]
    omega

/-! ## Claim C4: Update–Read round trip on the software tag -/

/-- C4: against an initialised, writable, default-id software tag
(valid NLEN header), `Device.Update` with a marshalled NDEF message of
length between 1 and `max_file_size − 2 = 0xFFFC` succeeds, and a
subsequent `Device.Read` on the resulting tag succeeds and returns
exactly the message bytes that were written. -/
theorem update_read_roundtrip (sel f0 f1 : Nat) (frest msg : List Nat)
    (hnl0 : bytesToUint16 f0 f1 ≤ 0xFFFC) (hm1 : 1 ≤ msg.length)
    (hm : msg.length ≤ 0xFFFE - 2) :
    ∃ (tagAfter tagFinal : Tag) (trace : List (List Nat × Nat)),
      deviceUpdate swtagTransceive ⟨0, sel, f0 :: f1 :: frest⟩ msg =
        .ok (tagAfter, trace) ∧
      deviceRead swtagTransceive tagAfter = .ok (msg, tagFinal) := by
  have hm' : msg.length ≤ 0xFFFC := by omega
  obtain ⟨tr, g, hupd, htake2, hwin, hlen⟩ :=
    deviceUpdate_default sel f0 f1 frest msg hnl0 hm1 hm'
  have hgshape : ∃ g0 g1 grest, g = g0 :: g1 :: grest := by
    cases g with
    | nil => simp at hlen
    | cons g0 gt =>
      cases gt with
      | nil => simp at hlen; omega
      | cons g1 grest => exact ⟨g0, g1, grest, rfl⟩
  obtain ⟨g0, g1, grest, hg⟩ := hgshape
  subst hg
  have hg01 : g0 = u16hi msg.length ∧ g1 = u16lo msg.length := by
    simp [List.take] at htake2
    exact htake2
  obtain ⟨hg0, hg1⟩ := hg01
  subst hg0
  subst hg1
  have hbe : bytesToUint16 (u16hi msg.length) (u16lo msg.length) =
      msg.length := by
    rw [u16modEq, Nat.mod_eq_of_lt (by omega)]
  refine ⟨⟨0, 0xE104, u16hi msg.length :: u16lo msg.length :: grest⟩,
    ⟨0, 0xE104, u16hi msg.length :: u16lo msg.length :: grest⟩, tr,
    hupd, ?_⟩
  rw [deviceRead_default 0xE104 (u16hi msg.length) (u16lo msg.length) grest
    (by omega) (by omega)
    (by simpa [hbe] using hlen)]
  rw [hbe]
  rw [show ((u16hi msg.length :: u16lo msg.length :: grest).drop 2) = grest
    from rfl]
  rw [show ((u16hi msg.length :: u16lo msg.length :: grest).drop 2) = grest
    from rfl] at hwin
  rw [hwin]

/-- C4 witness: the round trip at the default tag `⟨0, 0, [0, 0]⟩` with
message `[1, 2, 3]`. -/
theorem update_read_roundtrip_witness :
    ∃ (tagAfter tagFinal : Tag) (trace : List (List Nat × Nat)),
      deviceUpdate swtagTransceive ⟨0, 0, 0 :: 0 :: []⟩ [1, 2, 3] =
        .ok (tagAfter, trace) ∧
      deviceRead swtagTransceive tagAfter = .ok ([1, 2, 3], tagFinal) :=
  update_read_roundtrip 0 0 0 [] [1, 2, 3] (by decide) (by decide)
    (by decide)

/-- Binding a failed `Except` computation propagates the error. -/
lemma exceptErrorBind {eps alpha beta : Type} (e : eps)
    (f : alpha → Except eps beta) :
    ((Except.error e : Except eps alpha) >>= f) = Except.error e := rfl

/-- Parsing the canonical 15-byte CC frame fails with the control-TLV
RFU error when the embedded file id bytes do not validate. -/
lemma ccUnmarshal_served_fail (b0 b1 : Nat)
    (hchk : ControlTLV.check ⟨0x04, 0x06, bytesToUint16 b0 b1,
      0xFFFE, 0x00, 0x00⟩ = false) :
    CapabilityContainer.Unmarshal
        [0x00, 0x0F, 0x20, 0x00, 0xFF, 0x00, 0xFF,
         0x04, 0x06, b0, b1, 0xFF, 0xFE, 0x00, 0x00] =
      .error "ControlTLV.check: RFU" := by
  have h8 : TLV.Unmarshal [0x04, 0x06, b0, b1, 0xFF, 0xFE, 0x00, 0x00] =
      .ok (⟨0x04, 0x06, [b0, b1, 0xFF, 0xFE, 0x00, 0x00]⟩, 8) := by
    simp [TLV.Unmarshal]
  have hfcparse : NDEFFileControlTLV.Unmarshal
      [0x04, 0x06, b0, b1, 0xFF, 0xFE, 0x00, 0x00] =
      .error "ControlTLV.check: RFU" := by
    have hbe : bytesToUint16 0xFF 0xFE = 0xFFFE := rfl
    simp [NDEFFileControlTLV.Unmarshal, ControlTLV.Unmarshal, h8,
      exceptOkBind, exceptErrorBind, hbe, hchk]
  simp [CapabilityContainer.Unmarshal, hfcparse, exceptErrorBind]

/-- Inversion of a successful NDEF detection over the software tag: the
negotiated limits always come from the tag's fixed capability container
(`MLe = MLc = 0x00FF`, maximum file size `0xFFFE`, not read-only). -/
lemma detect_limits (tag : Tag) (st : DetectState) (s' : Tag)
    (h : ndefDetectProcedure swtagTransceive tag = .ok (st, s')) :
    st.MaxReadBinaryLen = 0x00FF ∧ st.MaxUpdateBinaryLen = 0x00FF ∧
    st.MaxNDEFLen = 0xFFFE ∧ st.ReadOnly = false := by
  rw [ndefDetectProcedure] at h
  obtain ⟨s1, h1, h⟩ := exceptBind_ok h
  rw [appselect_char] at h1
  by_cases hf2 : tag.file.length < 2
  · rw [if_pos hf2] at h1
    exact absurd h1 (by simp)
  rw [if_neg hf2] at h1
  have hs1 : tag = s1 := by simpa using h1
  rw [← hs1] at h
  obtain ⟨s2, h2, h⟩ := exceptBind_ok h
  rw [select_char, if_neg hf2, if_pos (Or.inl (by norm_num))] at h2
  have hs2 : ({ tag with selectedFileID := 0xE103 % 65536 } : Tag) = s2 := by
    simpa using h2
  rw [← hs2] at h
  obtain ⟨⟨ccBytes, s3⟩, h3, h⟩ := exceptBind_ok h
  rw [readBinary_cc_char { tag with selectedFileID := 0xE103 % 65536 }
    (Nat.not_lt.mp hf2)
    (by show (0xE103 % 65536 : Nat) = 0xE103; norm_num)] at h3
  simp only [Except.ok.injEq, Prod.mk.injEq] at h3
  dsimp only at h
  rw [← h3.1] at h
  obtain ⟨⟨cc, ncc⟩, h4, h⟩ := exceptBind_ok h
  set g := if tag.FileID = 0 then defaultNDEFFileID else tag.FileID
    with hgdef
  rw [show ccServedBytes tag.FileID = ((tagCC g).Marshal).getD []
    from rfl] at h4
  by_cases hv : ControlTLV.check ⟨0x04, 0x06, g, 0xFFFE, 0x00, 0x00⟩ = true
  case neg =>
    rw [tagCC_marshal g, if_neg hv] at h4
    simp [CapabilityContainer.Unmarshal] at h4
  case pos =>
    rw [tagCC_marshal g, if_pos hv] at h4
    simp only [Option.getD_some] at h4
    rw [show List.take 15 [0x00, 0x0F, 0x20, 0x00, 0xFF, 0x00, 0xFF, 0x04,
        0x06, u16hi g, u16lo g, 0xFF, 0xFE, 0x00, 0x00] =
      [0x00, 0x0F, 0x20, 0x00, 0xFF, 0x00, 0xFF, 0x04, 0x06, u16hi g,
       u16lo g, 0xFF, 0xFE, 0x00, 0x00] from rfl] at h4
    by_cases hv2 : ControlTLV.check ⟨0x04, 0x06,
        bytesToUint16 (u16hi g) (u16lo g), 0xFFFE, 0x00, 0x00⟩ = true
    case neg =>
      rw [ccUnmarshal_served_fail (u16hi g) (u16lo g)
        (by simpa using hv2)] at h4
      exact absurd h4 (by simp)
    case pos =>
      rw [ccUnmarshal_served (u16hi g) (u16lo g) hv2] at h4
      simp only [Except.ok.injEq, Prod.mk.injEq] at h4
      rw [← h4.1] at h
      rw [if_neg (fun hcon => hcon rfl)] at h
      obtain ⟨s4, h5, h⟩ := exceptBind_ok h
      obtain ⟨⟨nlenBytes, s5⟩, h6, h⟩ := exceptBind_ok h
      dsimp only at h
      split at h
      · split at h
        · exact absurd h (by simp)
        · simp only [Except.ok.injEq, Prod.mk.injEq] at h
          rw [← h.1]
          exact ⟨rfl, rfl, rfl, rfl⟩
      · exact absurd h (by simp)


/-- Any successful run of the update loop (over any driver) produces a
well-formed chunk trace. -/
lemma deviceUpdateLoop_trace {σ : Type} (tr : Transceive σ) (msg : List Nat)
    (W : Nat) :
    ∀ fuel (s : σ) tW wl (s' : σ) t, 1 ≤ wl → wl ≤ W →
      deviceUpdateLoop tr msg s tW wl fuel = .ok (s', t) →
      chunksOK W msg tW t = true := by
  intro fuel
  induction fuel with
  | zero =>
    intro s tW wl s' t hwl1 hwlW h
    simp only [deviceUpdateLoop] at h
    split at h
    · exact absurd h (by simp)
    · simp only [Except.ok.injEq, Prod.mk.injEq] at h
      rw [← h.2]
      simp only [chunksOK]
      rename_i hstop
      simp
      omega
  | succ k ih =>
    intro s tW wl s' t hwl1 hwlW h
    simp only [deviceUpdateLoop] at h
    split at h
    · rename_i htw
      obtain ⟨s1, hupd, h⟩ := exceptBind_ok h
      obtain ⟨⟨s2, rest⟩, hloop, h⟩ := exceptBind_ok h
      dsimp only at h
      simp only [Except.ok.injEq, Prod.mk.injEq] at h
      rw [← h.2]
      set wl2 := if msg.length - tW < wl then msg.length - tW else wl
        with hwl2def
      have hwl2 : 1 ≤ wl2 ∧ wl2 ≤ wl ∧ wl2 ≤ msg.length - tW := by
        rw [hwl2def]
        split <;> omega
      have hchunklen : ((msg.drop tW).take wl2).length = wl2 := by
        simp
        omega
      have hrec := ih s1 (tW + wl2) wl2 s2 rest hwl2.1 (by omega) hloop
      simp only [chunksOK, Bool.and_eq_true, decide_eq_true_eq]
      refine ⟨⟨⟨⟨by trivial, ?_⟩, ?_⟩, ?_⟩, ?_⟩
      · rw [hchunklen]
      · intro hnil
        rw [hnil] at hchunklen
        simp at hchunklen
        omega
      · rw [hchunklen]
        omega
      · rw [hchunklen]
        exact hrec
    · rename_i htw
      simp only [Except.ok.injEq, Prod.mk.injEq] at h
      rw [← h.2]
      simp only [chunksOK]
      simp
      omega

/-- Every offset in a well-formed chunk trace is at least 2. -/
lemma chunksOK_off_ge2 (W : Nat) (msg : List Nat) :
    ∀ t pos, chunksOK W msg pos t = true → ∀ p ∈ t, 2 ≤ p.2 := by
  intro t
  induction t with
  | nil =>
    intro pos _ p hp
    exact absurd hp (by simp)
  | cons q rest ih =>
    intro pos hok p hp
    obtain ⟨d, off⟩ := q
    simp only [chunksOK, Bool.and_eq_true, decide_eq_true_eq] at hok
    rcases List.mem_cons.mp hp with hpq | hprest
    · rw [hpq]
      dsimp only
      omega
    · exact ih (pos + d.length) hok.2 p hprest

/-- A write at offset at least 2 into a file of length at least 2
keeps the first two bytes and the length bound. -/
lemma goWriteAt_take2 (g : List Nat) (off : Nat) (d : List Nat)
    (hoff : 2 ≤ off) (hg : 2 ≤ g.length) :
    (goWriteAt g off d).take 2 = g.take 2 ∧
    2 ≤ (goWriteAt g off d).length := by
  constructor
  · rw [goWriteAt_eq]
    have hAlen : (g.take off ++
        List.replicate (off - g.length) (0 : Nat)).length = off := by
      simp
      omega
    rw [List.take_append_of_le_length (by simp; omega),
      List.take_append_of_le_length (by rw [hAlen]; omega),
      List.take_append_of_le_length (by simp; omega),
      List.take_take, show min 2 off = 2 from by omega]
  · rw [goWriteAt_length]
    omega

/-- Replaying a trace whose offsets all lie at or above 2 preserves the
NLEN bytes. -/
lemma applyTrace_take2 :
    ∀ (t : List (List Nat × Nat)) (g : List Nat), 2 ≤ g.length →
      (∀ p ∈ t, 2 ≤ p.2) →
      (applyTrace g t).take 2 = g.take 2 ∧ 2 ≤ (applyTrace g t).length := by
  intro t
  induction t with
  | nil =>
    intro g hg _
    exact ⟨rfl, hg⟩
  | cons q rest ih =>
    intro g hg hoffs
    obtain ⟨d, off⟩ := q
    have hoff : 2 ≤ off := hoffs (d, off) (by simp)
    have hstep := goWriteAt_take2 g off d hoff hg
    have hrest := ih (goWriteAt g off d) hstep.2
      (fun p hp => hoffs p (List.mem_cons_of_mem _ hp))
    refine ⟨?_, hrest.2⟩
    rw [show applyTrace g ((d, off) :: rest) =
      applyTrace (goWriteAt g off d) rest from rfl, hrest.1, hstep.1]

/-- The initial NLEN-clearing write puts `[0, 0]` at the head of any
file. -/
lemma goWriteAt_zero_take2 (f : List Nat) :
    (goWriteAt f 0 [0, 0]).take 2 = [0, 0] ∧
    2 ≤ (goWriteAt f 0 [0, 0]).length := by
  constructor
  · rw [goWriteAt_eq]
    simp
  · rw [goWriteAt_length]
    simp

/-! ## Claim C3: ordering of the UPDATE_BINARY commands of Device.Update -/

/-- C3: every successful `Device.Update(m)` against the software tag
issues exactly: a write of `[0x00, 0x00]` at offset 0 first, then the
payload chunks — consecutive non-empty windows of `m`, each of size at
most `MLc = 0x00FF`, at strictly increasing offsets starting at 2 — and
last a write of the big-endian 16-bit value `|m|` at offset 0; and
replaying any proper non-empty prefix of that command trace on the
tag's file leaves NLEN = 0x0000, so no intermediate state pairs a
non-zero NLEN with a partially written payload. -/
theorem update_trace_order (tag : Tag) (msg : List Nat) (s' : Tag)
    (trace : List (List Nat × Nat))
    (h : deviceUpdate swtagTransceive tag msg = .ok (s', trace)) :
    ∃ mid,
      trace = ([0x00, 0x00], 0) :: mid ++ [(u16Bytes msg.length, 0)] ∧
      chunksOK 0x00FF msg 0 mid = true ∧
      ∀ k, 1 ≤ k → k < trace.length →
        (applyTrace tag.file (trace.take k)).take 2 = [0x00, 0x00] := by
  rw [deviceUpdate] at h
  obtain ⟨⟨st, s1⟩, hdet, h⟩ := exceptBind_ok h
  obtain ⟨hMLe, hMLc, hMax, hRO⟩ := detect_limits tag st s1 hdet
  dsimp only at h
  split at h
  · exact absurd h (by simp)
  split at h
  · exact absurd h (by simp)
  rw [hMLc] at h
  obtain ⟨sA, hA, h⟩ := exceptBind_ok h
  obtain ⟨⟨sB, chunkTrace⟩, hB, h⟩ := exceptBind_ok h
  dsimp only at h
  obtain ⟨sC, hC, h⟩ := exceptBind_ok h
  simp only [Except.ok.injEq, Prod.mk.injEq] at h
  obtain ⟨hsC, htr⟩ := h
  have hchunks : chunksOK 0x00FF msg 0 chunkTrace = true := by
    by_cases hm0 : msg.length = 0
    · rw [deviceUpdateLoop_stop swtagTransceive msg sA 0 _ _
        (by omega)] at hB
      simp only [Except.ok.injEq, Prod.mk.injEq] at hB
      have hmsgnil : msg = [] := List.length_eq_zero.mp hm0
      rw [← hB.2, hmsgnil]
      rfl
    · exact deviceUpdateLoop_trace swtagTransceive msg 0x00FF
        (msg.length + 1) sA 0 _ sB chunkTrace
        (by split <;> omega) (by split <;> omega) hB
  refine ⟨chunkTrace, htr.symm, hchunks, ?_⟩
  intro k hk1 hk2
  rw [← htr] at hk2 ⊢
  obtain ⟨k2, rfl⟩ : ∃ k2, k = k2 + 1 := ⟨k - 1, by omega⟩
  have hlen1 : k2 + 1 ≤ (([0x00, 0x00], 0) :: chunkTrace).length := by
    simp only [List.length_append, List.length_cons, List.length_nil,
      List.length_singleton] at hk2
    simp only [List.length_cons]
    omega
  rw [List.take_append_of_le_length hlen1, List.take_succ_cons]
  rw [show applyTrace tag.file (([0x00, 0x00], 0) :: chunkTrace.take k2) =
    applyTrace (goWriteAt tag.file 0 [0x00, 0x00]) (chunkTrace.take k2)
    from rfl]
  have hzero := goWriteAt_zero_take2 tag.file
  have hoffs := chunksOK_off_ge2 0x00FF msg chunkTrace 0 hchunks
  have happ := applyTrace_take2 (chunkTrace.take k2)
    (goWriteAt tag.file 0 [0x00, 0x00]) hzero.2
    (fun p hp => hoffs p (List.mem_of_mem_take hp))
  rw [happ.1, hzero.1]

/-- C3 witness: the trace of updating the default tag `⟨0, 0, [0, 0]⟩`
with the message `[1, 2, 3]`. -/
theorem update_trace_order_witness :
    ∃ mid,
      ([([0x00, 0x00], 0), ([1, 2, 3], 2), ([0x00, 0x03], 0)] :
          List (List Nat × Nat)) =
        ([0x00, 0x00], 0) :: mid ++ [(u16Bytes 3, 0)] ∧
      chunksOK 0x00FF [1, 2, 3] 0 mid = true ∧
      ∀ k, 1 ≤ k →
        k < ([([0x00, 0x00], 0), ([1, 2, 3], 2), ([0x00, 0x03], 0)] :
          List (List Nat × Nat)).length →
        (applyTrace [0, 0]
          (([([0x00, 0x00], 0), ([1, 2, 3], 2), ([0x00, 0x03], 0)] :
            List (List Nat × Nat)).take k)).take 2 = [0x00, 0x00] :=
  update_trace_order ⟨0, 0, [0, 0]⟩ [1, 2, 3]
    ⟨0, 0xE104, [0, 3, 1, 2, 3]⟩
    [([0x00, 0x00], 0), ([1, 2, 3], 2), ([0x00, 0x03], 0)] rfl
